import Mathlib

/-!
Verification of the SCID-database decoder of obsidian-chess-journal.

Shallow embedding of `src/scid/types.ts`, `src/scid/board.ts`,
`src/scid/decode.ts`, `src/scid/game.ts`, `src/scid/index.ts` and the two
codecs (`codec4.ts`, `codec5.ts`).  Byte buffers are modelled as `List Nat`
(each element the value of one byte, 0-255), strings as Lean `String`
restricted to their byte-per-char (latin1) reading, squares as `Int`
(JavaScript numbers; the decoders can produce negative intermediate values
on corrupt data), and the mutable `Board` class as a record threaded through
the functions.  JavaScript `x >> 3` and `x & 7` on possibly-negative values
coincide with `Int.ediv`/`Int.emod` by 8, which Lean's `/` and `%` on `Int`
implement.
-/

namespace ChessJournal

/-! ## Constants (types.ts) -/

def KING : Nat := 1
def QUEEN : Nat := 2
def ROOK : Nat := 3
def BISHOP : Nat := 4
def KNIGHT : Nat := 5
def PAWN : Nat := 6
def EMPTY : Nat := 7

def WHITE : Nat := 0
def BLACK : Nat := 1

/-- `squareFile(sq) = sq & 7` (types.ts); JS bitwise-and on a negative
number agrees with `Int.emod` by 8. -/
def squareFile (sq : Int) : Int := sq % 8

/-- `squareRank(sq) = sq >> 3` (types.ts); JS arithmetic shift floors,
which `Int.ediv` by the positive constant 8 also does. -/
def squareRank (sq : Int) : Int := sq / 8

def FILE_CHARS : List Char := ['a', 'b', 'c', 'd', 'e', 'f', 'g', 'h']
def RANK_CHARS : List Char := ['1', '2', '3', '4', '5', '6', '7', '8']

/-- `squareToAlgebraic` (types.ts).  For squares outside 0-63 the source
produces the string `"undefined"` for the missing rank character; the model
uses a placeholder character, which no claim evaluates. -/
def squareToAlgebraic (sq : Int) : String :=
  String.mk [FILE_CHARS.getD (sq % 8).toNat '?', RANK_CHARS.getD (sq / 8).toNat '?']

/-- Special marker codes in the move stream (types.ts). -/
def ENCODE_NAG : Nat := 11
def ENCODE_COMMENT : Nat := 12
def ENCODE_START_MARKER : Nat := 13
def ENCODE_END_MARKER : Nat := 14
def ENCODE_END_GAME : Nat := 15

/-! ## Board model (board.ts) -/

/-- A `Piece` record; `square = -1` when captured / unused. -/
structure Piece where
  type : Nat
  color : Nat
  square : Int
deriving Repr, DecidableEq

/-- The value the `Board` constructor fills the 32 piece slots with. -/
def emptyPiece : Piece := ⟨EMPTY, WHITE, -1⟩

/-- The `Board` class.  `board` has 64 entries (piece slot or -1), `pieces`
32 entries; `listW`/`listB` and `countW`/`countB` model `list[color]` and
`listCount[color]`. -/
structure Board where
  board : List Int
  pieces : List Piece
  listW : List Nat
  listB : List Nat
  countW : Nat
  countB : Nat
  sideToMove : Nat
  epSquare : Int
deriving Repr, DecidableEq

/-- `this.list[color]`. -/
def Board.plist (b : Board) (c : Nat) : List Nat :=
  if c = WHITE then b.listW else b.listB

/-- `this.listCount[color]`. -/
def Board.pcount (b : Board) (c : Nat) : Nat :=
  if c = WHITE then b.countW else b.countB

def Board.setPlist (b : Board) (c : Nat) (l : List Nat) : Board :=
  if c = WHITE then { b with listW := l } else { b with listB := l }

def Board.setPcount (b : Board) (c : Nat) (n : Nat) : Board :=
  if c = WHITE then { b with countW := n } else { b with countB := n }

def Board.getSideToMove (b : Board) : Nat := b.sideToMove

def Board.getPieceCount (b : Board) (c : Nat) : Nat := b.pcount c

def Board.getEpSquare (b : Board) : Int := b.epSquare

/-- `getPiece(color, listIndex)` (board.ts). -/
def Board.getPiece (b : Board) (c idx : Nat) : Piece :=
  b.pieces.getD ((b.plist c).getD idx 0) emptyPiece

/-- Read `this.board[sq]`.  The source's `Int8Array` yields `undefined`
outside 0-63, which every caller treats like "no piece"; the model returns
-1 there. -/
def Board.boardAt (b : Board) (sq : Int) : Int :=
  if 0 ≤ sq ∧ sq < 64 then b.board.getD sq.toNat (-1) else -1

/-- Write `this.board[sq] = v`.  An out-of-range `Int8Array` write is
silently dropped, as is `List.set` out of range. -/
def Board.setBoardAt (b : Board) (sq : Int) (v : Int) : Board :=
  if 0 ≤ sq ∧ sq < 64 then { b with board := b.board.set sq.toNat v } else b

/-- The freshly constructed `Board`. -/
def emptyBoard : Board :=
  { board := List.replicate 64 (-1), pieces := List.replicate 32 emptyPiece,
    listW := [], listB := [], countW := 0, countB := 0,
    sideToMove := WHITE, epSquare := -1 }

/-- White setup order of `setupStartPosition` (type, square). -/
def whiteStart : List (Nat × Nat) :=
  [(KING, 4), (ROOK, 0), (KNIGHT, 1), (BISHOP, 2),
   (QUEEN, 3), (BISHOP, 5), (KNIGHT, 6), (ROOK, 7),
   (PAWN, 8), (PAWN, 9), (PAWN, 10), (PAWN, 11),
   (PAWN, 12), (PAWN, 13), (PAWN, 14), (PAWN, 15)]

/-- Black setup order of `setupStartPosition` (type, square). -/
def blackStart : List (Nat × Nat) :=
  [(KING, 60), (ROOK, 56), (KNIGHT, 57), (BISHOP, 58),
   (QUEEN, 59), (BISHOP, 61), (KNIGHT, 62), (ROOK, 63),
   (PAWN, 48), (PAWN, 49), (PAWN, 50), (PAWN, 51),
   (PAWN, 52), (PAWN, 53), (PAWN, 54), (PAWN, 55)]

/-- One iteration of the placement loops of `setupStartPosition`:
`pieces[absIdx] = {type, color, sq}; board[sq] = absIdx; list[color].push(absIdx)`. -/
def placeStartPiece (c base : Nat) (b : Board) (ip : Nat × (Nat × Nat)) : Board :=
  let absIdx := base + ip.1
  let b1 := { b with pieces := b.pieces.set absIdx ⟨ip.2.1, c, (ip.2.2 : Int)⟩,
                     board := b.board.set ip.2.2 absIdx }
  b1.setPlist c (b1.plist c ++ [absIdx])

/-- `setupStartPosition()` (board.ts). -/
def setupStartPosition : Board :=
  let b1 := (whiteStart.enum).foldl (placeStartPiece WHITE 0) emptyBoard
  let b2 := (blackStart.enum).foldl (placeStartPiece BLACK 16) b1
  { b2 with countW := 16, countB := 16, sideToMove := WHITE, epSquare := -1 }

/-- `charToPieceType` (board.ts). -/
def charToPieceType (ch : Char) : Nat :=
  if ch = 'K' then KING
  else if ch = 'Q' then QUEEN
  else if ch = 'R' then ROOK
  else if ch = 'B' then BISHOP
  else if ch = 'N' then KNIGHT
  else PAWN

/-- ASCII model of `String.prototype.toUpperCase` applied to one char. -/
def asciiUpper (c : Char) : Char :=
  if 'a' ≤ c ∧ c ≤ 'z' then Char.ofNat (c.toNat - 32) else c

/-- ASCII model of `String.prototype.toLowerCase` applied to one char. -/
def asciiLower (c : Char) : Char :=
  if 'A' ≤ c ∧ c ≤ 'Z' then Char.ofNat (c.toNat + 32) else c

/-- ASCII model of `String.prototype.toLowerCase`. -/
def jsToLower (s : String) : String := String.mk (s.toList.map asciiLower)

/-- `addPiece(type, color, sq)` (board.ts).  The `take count` mirrors the
source's explicit `list.length = count + 1` truncation; on every reachable
state `(plist c).length = pcount c`, so it is the identity there. -/
def Board.addPiece (b : Board) (t c : Nat) (sq : Int) : Board :=
  let base := c * 16
  let count := b.pcount c
  let l := b.plist c
  let absIdx := base + count
  let l' :=
    if t = KING then
      if count > 0 then (l.set 0 absIdx).take count ++ [l.getD 0 0] else [absIdx]
    else
      l.take count ++ [absIdx]
  let b1 := { b with pieces := b.pieces.set absIdx ⟨t, c, sq⟩ }
  let b2 := b1.setBoardAt sq absIdx
  (b2.setPlist c l').setPcount c (count + 1)

/-- The pieces `setupFromFEN` adds while scanning one FEN row, with the
running file counter (board.ts lines 349-360).  Each element is
(type, color, square). -/
def fenRowPieces (rank : Int) (row : List Char) : List (Nat × Nat × Int) :=
  (row.foldl
    (fun (st : Int × List (Nat × Nat × Int)) ch =>
      if '1' ≤ ch ∧ ch ≤ '8' then (st.1 + ((ch.toNat : Int) - 48), st.2)
      else
        let color := if asciiUpper ch = ch then WHITE else BLACK
        let t := charToPieceType (asciiUpper ch)
        (st.1 + 1, st.2 ++ [(t, color, rank * 8 + st.1)]))
    (0, [])).2

/-- `String.prototype.split` with a one-character separator, on char lists. -/
def splitCharAux (sep : Char) : List Char → List (List Char)
  | [] => [[]]
  | c :: cs =>
    match splitCharAux sep cs with
    | [] => if c = sep then [[], []] else [[c]]
    | h :: t => if c = sep then [] :: h :: t else (c :: h) :: t

/-- JavaScript `s.split(sep)` for a one-character separator. -/
def jsSplit (s : String) (sep : Char) : List String :=
  (splitCharAux sep s.toList).map String.mk

/-- All pieces of the FEN placement field in reading order
(rank `7 - rowIdx`, files left to right). -/
def fenPlacements (placement : String) : List (Nat × Nat × Int) :=
  ((jsSplit placement '/').enum).foldl
    (fun acc ir => acc ++ fenRowPieces (7 - (ir.1 : Int)) ir.2.toList) []

/-- `setupFromFEN(fen)` (board.ts).  The source interleaves FEN scanning
with `addPiece` calls; the model extracts the scanned pieces first
(`fenPlacements`) and folds `addPiece` over them, which performs the same
calls in the same order on the same squares. -/
def setupFromFEN (fen : String) : Board :=
  let parts := jsSplit fen ' '
  let b0 := (fenPlacements (parts.getD 0 "")).foldl
    (fun b p => b.addPiece p.1 p.2.1 p.2.2) emptyBoard
  let side := if parts.length > 1 ∧ parts.getD 1 "" = "b" then BLACK else WHITE
  let ep : Int :=
    if parts.length > 3 ∧ parts.getD 3 "" ≠ "-" then
      let s := (parts.getD 3 "").toList
      let epFile : Int := ((s.getD 0 ' ').toNat : Int) - 97
      let epRank : Int := ((s.getD 1 ' ').toNat : Int) - 48 - 1
      epRank * 8 + epFile
    else (-1)
  { b0 with sideToMove := side, epSquare := ep }

/-- The piece-list compaction of `removePiece` (board.ts lines 484-490):
overwrite the removed slot with the last live entry when it is not itself
the last, then shrink the list to `lastIdx` entries. -/
def removeFromList (l : List Nat) (absIdx lastIdx : Nat) : List Nat :=
  (if l.indexOf absIdx < lastIdx then l.set (l.indexOf absIdx) (l.getD lastIdx 0)
   else l).take lastIdx

/-- `removePiece(absIdx)` (board.ts).  `List.indexOf` returns the length
when the element is missing, so `listIdx < l.length` matches the source's
`listIdx >= 0` test on JavaScript's `-1`-on-missing `indexOf`. -/
def Board.removePiece (b : Board) (absIdx : Nat) : Board :=
  let p := b.pieces.getD absIdx emptyPiece
  let c := p.color
  let l := b.plist c
  let b1 :=
    if l.indexOf absIdx < l.length then
      (b.setPlist c (removeFromList l absIdx (b.pcount c - 1))).setPcount c (b.pcount c - 1)
    else b
  let b2 := if 0 ≤ p.square then b1.setBoardAt p.square (-1) else b1
  { b2 with pieces := b2.pieces.set absIdx { p with square := -1, type := EMPTY } }

/-- The capture block of `applyMove` (board.ts lines 427-435): remove a
directly captured piece, else an en-passant-captured pawn (also clearing
its square). -/
def Board.doCapture (b1 : Board) (capturedIdx epCaptureSq : Int) : Board :=
  if 0 ≤ capturedIdx then b1.removePiece capturedIdx.toNat
  else if 0 ≤ epCaptureSq then
    (if 0 ≤ b1.boardAt epCaptureSq then
      (b1.removePiece (b1.boardAt epCaptureSq).toNat).setBoardAt epCaptureSq (-1)
    else b1)
  else b1

/-- The piece-relocation block of `applyMove` (board.ts lines 437-440). -/
def Board.movePieceTo (b2 : Board) (src dst movingIdx : Int) : Board :=
  let b3 := (b2.setBoardAt src (-1)).setBoardAt dst movingIdx
  let mp := b3.pieces.getD movingIdx.toNat emptyPiece
  { b3 with pieces := b3.pieces.set movingIdx.toNat { mp with square := dst } }

/-- The promotion block of `applyMove` (board.ts lines 442-445). -/
def Board.doPromo (b4 : Board) (mIdx : Nat) (promo : Option Nat) : Board :=
  match promo with
  | some p =>
    let mp2 := b4.pieces.getD mIdx emptyPiece
    { b4 with pieces := b4.pieces.set mIdx { mp2 with type := p } }
  | none => b4

/-- The castling block of `applyMove` (board.ts lines 447-463): relocate
the rook from its corner next to the king's new square. -/
def Board.doCastle (b5 : Board) (src dst : Int) : Board :=
  let rookFrom : Int := if dst > src then squareRank src * 8 + 7 else squareRank src * 8
  let rookTo : Int := if dst > src then squareRank src * 8 + 5 else squareRank src * 8 + 3
  let rookIdx : Int := b5.boardAt rookFrom
  if 0 ≤ rookIdx then
    let rp := b5.pieces.getD rookIdx.toNat emptyPiece
    let b5a := (b5.setBoardAt rookFrom (-1)).setBoardAt rookTo rookIdx
    { b5a with pieces := b5a.pieces.set rookIdx.toNat { rp with square := rookTo } }
  else b5

/-- `applyMove(from, to, promo, isCastle, isNull)` (board.ts), assembled
from the blocks above in source order.  The source would raise a runtime
`TypeError` when `from` is outside 0-63 on a non-null move (an `undefined`
array read); the model's `boardAt` folds that case into the documented
"empty from square is a no-op" behaviour, which no claim exercises. -/
def Board.applyMove (b : Board) (src dst : Int) (promo : Option Nat)
    (isCastle isNull : Bool) : Board :=
  if isNull then
    { b with sideToMove := 1 - b.sideToMove, epSquare := -1 }
  else
    let movingIdx := b.boardAt src
    if movingIdx < 0 then b
    else
      let mIdx := movingIdx.toNat
      let movingPiece := b.pieces.getD mIdx emptyPiece
      let capturedIdx := b.boardAt dst
      let epCaptureSq : Int :=
        if movingPiece.type = PAWN ∧ dst = b.epSquare then
          (if b.sideToMove = WHITE then dst - 8 else dst + 8)
        else (-1)
      let newEp : Int :=
        if movingPiece.type = PAWN ∧ (dst - src).natAbs = 16 then (src + dst) / 2
        else (-1)
      let b1 := { b with epSquare := newEp }
      let b2 := b1.doCapture capturedIdx epCaptureSq
      let b4 := b2.movePieceTo src dst movingIdx
      let b5 := b4.doPromo mIdx promo
      let b6 := if isCastle then b5.doCastle src dst else b5
      { b6 with sideToMove := 1 - b6.sideToMove }

/-! ## Move decoder (decode.ts) -/

/-- `ScidMove` (types.ts): algebraic from/to plus optional promotion
letter.  `fromSq`/`toSq` model the source's `from`/`to` fields (Lean
reserves `from`). -/
structure ScidMove where
  fromSq : String
  toSq : String
  promotion : Option String := none
deriving Repr, DecidableEq

inductive MarkerKind where
  | nagMarker
  | commentMarker
  | startVariation
  | endVariation
  | endGame
deriving Repr, DecidableEq

/-- Result of `decodeMoveOrMarker`: a `DecodeResult` (`move`), a
`DecodeMarker` (`marker`, whose `nagVal` models the optional `nag` field),
or the thrown `Error` for an unknown piece type. -/
inductive DecodeOut where
  | move (m : ScidMove) (srcSq dstSq : Int) (promo : Option Nat)
         (isCastle isNull : Bool)
  | marker (kind : MarkerKind) (nagVal : Option Nat)
  | decodeError (msg : String)
deriving Repr, DecidableEq

/-- The `readNextByte` callback built in `parseGameData`: return the next
stream byte, or 0 once the byte range is exhausted. -/
def pullByte : List Nat → Nat × List Nat
  | [] => (0, [])
  | v :: r => (v, r)

/-- `KING_DELTAS` (decode.ts). -/
def KING_DELTAS : List Int := [0, -9, -8, -7, -1, 1, 7, 8, 9]

/-- `decodeKing` (decode.ts): returns (to, isCastle, isNull).  For codes
11-15 (reachable only on corrupt data, when a king sits at a piece-list
index other than 0) the source reads past the delta table and yields `NaN`;
the model returns `from` unchanged there, which no claim evaluates. -/
def decodeKing (fromSq : Int) (code : Nat) : Int × Bool × Bool :=
  if code = 0 then (fromSq, false, true)
  else if code = 10 then (fromSq + 2, true, false)
  else if code = 9 then (fromSq - 2, true, false)
  else (fromSq + KING_DELTAS.getD code 0, false, false)

/-- `decodeQueen` (decode.ts): returns (to, remaining stream). -/
def decodeQueen (fromSq : Int) (code : Nat) (rest : List Nat) : Int × List Nat :=
  if code < 8 then
    if (code : Int) = squareFile fromSq then
      ((((pullByte rest).1 : Nat) : Int) - 64, (pullByte rest).2)
    else (squareRank fromSq * 8 + code, rest)
  else (((code : Int) - 8) * 8 + squareFile fromSq, rest)

/-- `decodeRook` (decode.ts). -/
def decodeRook (fromSq : Int) (code : Nat) : Int :=
  if code < 8 then squareRank fromSq * 8 + code
  else ((code : Int) - 8) * 8 + squareFile fromSq

/-- `decodeBishop` (decode.ts). -/
def decodeBishop (fromSq : Int) (code : Nat) : Int :=
  let fromFile := squareFile fromSq
  let fromRank := squareRank fromSq
  if code < 8 then
    let toFile : Int := code
    let fileDiff := toFile - fromFile
    (fromRank + fileDiff) * 8 + toFile
  else
    let toFile : Int := (code : Int) - 8
    let fileDiff := toFile - fromFile
    (fromRank - fileDiff) * 8 + toFile

/-- `KNIGHT_DELTAS` (decode.ts). -/
def KNIGHT_DELTAS : List Int := [0, -17, -15, -10, -6, 6, 10, 15, 17]

/-- `decodeKnight` (decode.ts); codes 9-15 read past the table in the
source (`NaN`), modelled as delta 0, which no claim evaluates. -/
def decodeKnight (fromSq : Int) (code : Nat) : Int :=
  fromSq + KNIGHT_DELTAS.getD code 0

/-- `PROMO_PIECES` (decode.ts). -/
def PROMO_PIECES : List Nat := [QUEEN, ROOK, BISHOP, KNIGHT]

/-- `decodePawn` (decode.ts): returns (to, promo). -/
def decodePawn (fromSq : Int) (code c : Nat) : Int × Option Nat :=
  let dir : Int := if c = WHITE then 1 else -1
  let leftFile : Int := if c = WHITE then -1 else 1
  if code = 15 then
    (fromSq + dir * 16, none)
  else if code ≤ 2 then
    (if code = 0 then fromSq + dir * 8 + leftFile
     else if code = 1 then fromSq + dir * 8
     else fromSq + dir * 8 - leftFile, none)
  else
    let promoCode := code - 3
    let promoDir := promoCode % 3
    let promoPiece := promoCode / 3
    let toSq :=
      if promoDir = 0 then fromSq + dir * 8 + leftFile
      else if promoDir = 1 then fromSq + dir * 8
      else fromSq + dir * 8 - leftFile
    (toSq, some (PROMO_PIECES.getD promoPiece QUEEN))

/-- `pieceTypeToChar` (decode.ts). -/
def pieceTypeToChar (pt : Nat) : String :=
  if pt = QUEEN then "q"
  else if pt = ROOK then "r"
  else if pt = BISHOP then "b"
  else if pt = KNIGHT then "n"
  else "q"

/-- Assemble the returned `DecodeResult` (decode.ts lines 87-103). -/
def finishMove (srcSq dstSq : Int) (promo : Option Nat)
    (isCastle isNull : Bool) : DecodeOut :=
  DecodeOut.move
    { fromSq := squareToAlgebraic srcSq, toSq := squareToAlgebraic dstSq,
      promotion := promo.map pieceTypeToChar }
    srcSq dstSq promo isCastle isNull

/-- The non-marker path of `decodeMoveOrMarker` (decode.ts lines 54-103):
fetch the piece at `pieceIndex` of the side to move and dispatch on its
type. -/
def decodePieceMove (b : Board) (pieceIndex code : Nat) (rest : List Nat) :
    DecodeOut × List Nat :=
  let color := b.getSideToMove
  let piece := b.getPiece color pieceIndex
  let fromSq := piece.square
  if piece.type = KING then
    (finishMove fromSq (decodeKing fromSq code).1 none
      (decodeKing fromSq code).2.1 (decodeKing fromSq code).2.2, rest)
  else if piece.type = QUEEN then
    (finishMove fromSq (decodeQueen fromSq code rest).1 none false false,
      (decodeQueen fromSq code rest).2)
  else if piece.type = ROOK then
    (finishMove fromSq (decodeRook fromSq code) none false false, rest)
  else if piece.type = BISHOP then
    (finishMove fromSq (decodeBishop fromSq code) none false false, rest)
  else if piece.type = KNIGHT then
    (finishMove fromSq (decodeKnight fromSq code) none false false, rest)
  else if piece.type = PAWN then
    (finishMove fromSq (decodePawn fromSq code color).1
      (decodePawn fromSq code color).2 false false, rest)
  else
    (DecodeOut.decodeError ("Unknown piece type " ++ toString piece.type ++
      " at square " ++ toString fromSq), rest)

/-- `decodeMoveOrMarker(board, byte, readNextByte)` (decode.ts), with the
byte stream made explicit: the second component is the stream left after
any `readNextByte()` calls the function performs. -/
def decodeMoveOrMarker (b : Board) (byte : Nat) (rest : List Nat) :
    DecodeOut × List Nat :=
  let pieceIndex := (byte >>> 4) &&& 0x0F
  let code := byte &&& 0x0F
  if pieceIndex = 0 ∧ ENCODE_NAG ≤ code then
    if code = ENCODE_NAG then
      (DecodeOut.marker .nagMarker (some (pullByte rest).1), (pullByte rest).2)
    else if code = ENCODE_COMMENT then (DecodeOut.marker .commentMarker none, rest)
    else if code = ENCODE_START_MARKER then (DecodeOut.marker .startVariation none, rest)
    else if code = ENCODE_END_MARKER then (DecodeOut.marker .endVariation none, rest)
    else (DecodeOut.marker .endGame none, rest)
  else
    decodePieceMove b pieceIndex code rest

/-! ## Game-stream parser (game.ts) -/

/-- `buf.toString("latin1", ...)`: one char per byte. -/
def latin1 (bytes : List Nat) : String :=
  String.mk (bytes.map (fun v => Char.ofNat (v % 256)))

/-- `COMMON_TAGS[nameLen] || "Tag" + nameLen` (game.ts). -/
def commonTagName (n : Nat) : String :=
  if n = 241 then "Annotator"
  else if n = 242 then "PlyCount"
  else if n = 243 then "EventType"
  else if n = 244 then "EventRounds"
  else if n = 245 then "EventCountry"
  else if n = 246 then "EventCategory"
  else if n = 247 then "Source"
  else if n = 248 then "SourceDate"
  else if n = 249 then "TimeControl"
  else if n = 250 then "Board"
  else if n = 251 then "Opening"
  else if n = 252 then "Variation"
  else if n = 253 then "SubVariation"
  else if n = 254 then "Section"
  else if n = 255 then "Stage"
  else "Tag" ++ toString n

/-- The extra-tags loop of `parseGameData` (game.ts lines 42-64).  Returns
the tag pairs and the bytes following the tag section.  A length byte that
runs past the end of the range makes the source read `undefined` and fall
out of the loop with an empty value string; the model returns the
accumulated tags with an empty remaining stream there. -/
def tagNameOf (nameLen : Nat) (rest : List Nat) : String :=
  if nameLen > 240 then commonTagName nameLen else latin1 (rest.take nameLen)

/-- The bytes left after the tag-name field: a common tag (length byte
over 240) consumes no name bytes. -/
def tagRest (nameLen : Nat) (rest : List Nat) : List Nat :=
  if nameLen > 240 then rest else rest.drop nameLen

theorem tagRest_length_le (nameLen : Nat) (rest : List Nat) :
    (tagRest nameLen rest).length ≤ rest.length := by
  unfold tagRest; split <;> simp

def parseTagsAux : List Nat → List (String × String) → List (String × String) × List Nat
  | [], acc => (acc, [])
  | nameLen :: rest, acc =>
    if nameLen = 0 then (acc, rest)
    else
      match h1 : tagRest nameLen rest with
      | [] => (acc ++ [(tagNameOf nameLen rest, "")], [])
      | vl :: r2 =>
        if vl > 240 then
          match h2 : r2 with
          | [] => (acc ++ [(tagNameOf nameLen rest, "")], [])
          | nb :: r3 =>
            parseTagsAux (r3.drop ((vl - 240) * 256 + nb))
              (acc ++ [(tagNameOf nameLen rest, latin1 (r3.take ((vl - 240) * 256 + nb)))])
        else
          parseTagsAux (r2.drop vl) (acc ++ [(tagNameOf nameLen rest, latin1 (r2.take vl))])
termination_by l _ => l.length
decreasing_by
  · have hr1 := tagRest_length_le nameLen rest
    rw [h1] at hr1
    simp only [List.length_cons, List.length_drop] at *
    omega
  · have hr1 := tagRest_length_le nameLen rest
    rw [h1] at hr1
    simp only [List.length_cons, List.length_drop] at *
    omega

/-- The start-board-flag step of `parseGameData` (game.ts lines 67-77):
returns the optional FEN string and the remaining bytes. -/
def parseStartFlag : List Nat → Option String × List Nat
  | [] => (none, [])
  | flagByte :: rest =>
    if flagByte &&& 1 = 1 then
      let fenBytes := rest.takeWhile (fun v => v ≠ 0)
      (some (latin1 fenBytes), rest.drop (fenBytes.length + 1))
    else (none, rest)

theorem pullByte_length_le (r : List Nat) : (pullByte r).2.length ≤ r.length := by
  cases r <;> simp [pullByte]

theorem decodeQueen_length_le (fromSq : Int) (code : Nat) (rest : List Nat) :
    (decodeQueen fromSq code rest).2.length ≤ rest.length := by
  unfold decodeQueen
  split
  · split
    · exact pullByte_length_le rest
    · exact Nat.le_refl _
  · exact Nat.le_refl _

theorem decodePieceMove_length_le (b : Board) (pieceIndex code : Nat)
    (rest : List Nat) :
    (decodePieceMove b pieceIndex code rest).2.length ≤ rest.length := by
  simp only [decodePieceMove]
  split_ifs <;>
    first
      | simpa using decodeQueen_length_le (b.getPiece b.getSideToMove pieceIndex).square code rest
      | simp

theorem decodeMoveOrMarker_length_le (b : Board) (byte : Nat) (rest : List Nat) :
    (decodeMoveOrMarker b byte rest).2.length ≤ rest.length := by
  simp only [decodeMoveOrMarker]
  split_ifs <;>
    first
      | simpa using pullByte_length_le rest
      | simpa using decodePieceMove_length_le b (byte >>> 4 &&& 15) (byte &&& 15) rest
      | simp

/-- The move/marker loop of `parseGameData` (game.ts lines 97-134), with
the loop state explicit: remaining bytes, working board, accumulated
main-line moves, variation depth, board stack and `preMoveBoard`.  Returns
the accumulated moves and the final working board (the source keeps the
board internal; it is returned here so that theorems can speak about it).
An `Error` thrown by `decodeMoveOrMarker` propagates as `.error`. -/
def parseMoveStream : List Nat → Board → List ScidMove → Int → List Board → Board →
    Except String (List ScidMove × Board)
  | [], board, moves, _, _, _ => .ok (moves, board)
  | byte :: rest, board, moves, depth, stack, preMove =>
    match (decodeMoveOrMarker board byte rest).1 with
    | .move m srcSq dstSq promo isCastle isNull =>
      parseMoveStream (decodeMoveOrMarker board byte rest).2
        (board.applyMove srcSq dstSq promo isCastle isNull)
        (if depth = 0 then moves ++ [m] else moves) depth stack board
    | .marker .nagMarker _ =>
      parseMoveStream (decodeMoveOrMarker board byte rest).2 board moves depth stack preMove
    | .marker .commentMarker _ =>
      parseMoveStream (decodeMoveOrMarker board byte rest).2 board moves depth stack preMove
    | .marker .startVariation _ =>
      parseMoveStream (decodeMoveOrMarker board byte rest).2 preMove moves (depth + 1)
        (stack ++ [board]) preMove
    | .marker .endVariation _ =>
      (match stack.getLast? with
       | some popped =>
         parseMoveStream (decodeMoveOrMarker board byte rest).2 popped moves (depth - 1)
           stack.dropLast preMove
       | none =>
         parseMoveStream (decodeMoveOrMarker board byte rest).2 board moves (depth - 1)
           stack preMove)
    | .marker .endGame _ => .ok (moves, board)
    | .decodeError msg => .error msg
termination_by l _ _ _ _ _ => l.length
decreasing_by
  all_goals
    have h := decodeMoveOrMarker_length_le board byte rest
    simp only [List.length_cons]
    omega

/-- `ParsedGameData` (game.ts). -/
structure ParsedGameData where
  extraTags : List (String × String)
  moves : List ScidMove
  startFen : Option String
deriving Repr, DecidableEq

/-- `parseGameData(buf, offset, length)` (game.ts), over the byte slice
`buf[offset .. offset+length)` given as a list.  Also returns the final
working board next to the source's `ParsedGameData`. -/
def parseGameData (bytes : List Nat) : Except String (ParsedGameData × Board) :=
  let tagsOut := parseTagsAux bytes []
  let flagOut := parseStartFlag tagsOut.2
  let board :=
    match flagOut.1 with
    | some f => if f = "" then setupStartPosition else setupFromFEN f
    | none => setupStartPosition
  match parseMoveStream flagOut.2 board [] 0 [] board with
  | .ok mb => .ok (⟨tagsOut.1, mb.1, flagOut.1⟩, mb.2)
  | .error e => .error e

/-! ## Shared packed-field decoders (types.ts) -/

def NAME_PLAYER : Nat := 0
def NAME_EVENT : Nat := 1
def NAME_SITE : Nat := 2
def NAME_ROUND : Nat := 3

def RESULT_NONE : Nat := 0
def RESULT_WHITE : Nat := 1
def RESULT_BLACK : Nat := 2
def RESULT_DRAW : Nat := 3

/-- `resultToString` (types.ts). -/
def resultToString (r : Nat) : String :=
  if r = RESULT_WHITE then "1-0"
  else if r = RESULT_BLACK then "0-1"
  else if r = RESULT_DRAW then "1/2-1/2"
  else "*"

/-- `String(n).padStart(len, "0")`. -/
def padZeros (s : String) (len : Nat) : String :=
  String.mk (List.replicate (len - s.length) '0') ++ s

/-- `decodeDate` (types.ts). -/
def decodeDate (d : Nat) : String :=
  if d = 0 then "????.??.??"
  else
    let dd := d &&& 31
    let m := (d >>> 5) &&& 15
    let y := d >>> 9
    let ys := if y = 0 then "????" else padZeros (toString y) 4
    let ms := if m = 0 then "??" else padZeros (toString m) 2
    let ds := if dd = 0 then "??" else padZeros (toString dd) 2
    ys ++ "." ++ ms ++ "." ++ ds

/-- `decodeEco` (types.ts). -/
def decodeEco (eco : Nat) : String :=
  if eco = 0 then ""
  else
    let subcode := eco &&& 3
    let digits := (eco >>> 2) % 100
    let letter := eco / 400
    if letter > 4 then ""
    else
      let base := String.mk [Char.ofNat (65 + letter)] ++ padZeros (toString digits) 2
      if subcode = 0 then base
      else base ++ String.mk [Char.ofNat (96 + subcode)]

/-- `IndexEntry` (types.ts). -/
structure IndexEntry where
  whiteId : Nat
  blackId : Nat
  eventId : Nat
  siteId : Nat
  roundId : Nat
  whiteElo : Nat
  blackElo : Nat
  date : Nat
  result : Nat
  eco : Nat
  gameOffset : Nat
  gameLength : Nat
deriving Repr, DecidableEq

def defaultEntry : IndexEntry := ⟨0, 0, 0, 0, 0, 0, 0, 0, 0, 0, 0, 0⟩

/-! ## Format-A codec (codec4.ts) -/

/-- `buf[i]`; in-range for every read the codecs perform on well-formed
input. -/
def byteAt (buf : List Nat) (i : Nat) : Nat := buf.getD i 0

/-- `buf.readUInt32BE(off)`. -/
def readU32BE (buf : List Nat) (off : Nat) : Nat :=
  (byteAt buf off <<< 24) ||| (byteAt buf (off + 1) <<< 16) |||
  (byteAt buf (off + 2) <<< 8) ||| byteAt buf (off + 3)

/-- `buf.readUInt32LE(off)`. -/
def readU32LE (buf : List Nat) (off : Nat) : Nat :=
  (byteAt buf (off + 3) <<< 24) ||| (byteAt buf (off + 2) <<< 16) |||
  (byteAt buf (off + 1) <<< 8) ||| byteAt buf off

/-- A 3-byte big-endian read `(buf[o] << 16) | (buf[o+1] << 8) | buf[o+2]`. -/
def read3BE (buf : List Nat) (off : Nat) : Nat :=
  (byteAt buf off <<< 16) ||| (byteAt buf (off + 1) <<< 8) ||| byteAt buf (off + 2)

def SI4_HEADER_SIZE : Nat := 182
def SI4_RECORD_SIZE : Nat := 47

/-- One 47-byte big-endian record of the format-A index (codec4.ts). -/
def codec4Record (buf : List Nat) (base : Nat) : IndexEntry :=
  let gameOffset := readU32BE buf base
  let b4 := byteAt buf (base + 4)
  let b5 := byteAt buf (base + 5)
  let b6 := byteAt buf (base + 6)
  let gameLength := (b4 <<< 9) ||| (b5 <<< 1) ||| (b6 >>> 7)
  let b9 := byteAt buf (base + 9)
  let whiteIdHigh := (b9 >>> 4) &&& 0x0F
  let blackIdHigh := b9 &&& 0x0F
  let whiteIdLow := (byteAt buf (base + 10) <<< 8) ||| byteAt buf (base + 11)
  let blackIdLow := (byteAt buf (base + 12) <<< 8) ||| byteAt buf (base + 13)
  let b14 := byteAt buf (base + 14)
  let eventIdHigh := (b14 >>> 5) &&& 0x07
  let siteIdHigh := (b14 >>> 2) &&& 0x07
  let roundIdHigh := b14 &&& 0x03
  let eventIdLow := (byteAt buf (base + 15) <<< 8) ||| byteAt buf (base + 16)
  let siteIdLow := (byteAt buf (base + 17) <<< 8) ||| byteAt buf (base + 18)
  let roundIdLow := (byteAt buf (base + 19) <<< 8) ||| byteAt buf (base + 20)
  let b22 := byteAt buf (base + 22)
  let eco := (byteAt buf (base + 23) <<< 8) ||| byteAt buf (base + 24)
  let b25 := byteAt buf (base + 25)
  let b26 := byteAt buf (base + 26)
  let b27 := byteAt buf (base + 27)
  { whiteId := (whiteIdHigh <<< 16) ||| whiteIdLow,
    blackId := (blackIdHigh <<< 16) ||| blackIdLow,
    eventId := (eventIdHigh <<< 16) ||| eventIdLow,
    siteId := (siteIdHigh <<< 16) ||| siteIdLow,
    roundId := (roundIdHigh <<< 16) ||| roundIdLow,
    whiteElo := (byteAt buf (base + 29) <<< 4) ||| (byteAt buf (base + 30) >>> 4),
    blackElo := (byteAt buf (base + 31) <<< 4) ||| (byteAt buf (base + 32) >>> 4),
    date := (b25 <<< 12) ||| (b26 <<< 4) ||| (b27 >>> 4),
    result := b22 &&& 0x0F,
    eco := eco,
    gameOffset := gameOffset,
    gameLength := gameLength }

/-- `codec4.readIndex` (codec4.ts): a buffer shorter than the 182-byte
header yields an empty entry list — it does not raise an error — and the
magic bytes are never inspected. -/
def codec4ReadIndex (buf : List Nat) : List IndexEntry :=
  if buf.length < SI4_HEADER_SIZE then []
  else
    let numGames := read3BE buf 13
    let available := (buf.length - SI4_HEADER_SIZE) / SI4_RECORD_SIZE
    let count := min numGames available
    (List.range count).map (fun i => codec4Record buf (SI4_HEADER_SIZE + i * SI4_RECORD_SIZE))

/-- One front-coded namebase entry of `codec4.readNamebase`.  State:
(position, previous name, id-indexed name array, stopped-by-break). -/
def nb4Step (buf : List Nat) (count idSize freqSize : Nat)
    (st : Nat × String × List String × Bool) : Nat × String × List String × Bool :=
  if st.2.2.2 then st
  else
    let pos := st.1
    if pos + idSize + freqSize + 2 > buf.length then (pos, st.2.1, st.2.2.1, true)
    else
      let id :=
        if idSize = 3 then read3BE buf pos
        else (byteAt buf pos <<< 8) ||| byteAt buf (pos + 1)
      let p1 := pos + idSize + freqSize
      let nameLen := byteAt buf p1
      let pref := byteAt buf (p1 + 1)
      let p2 := p1 + 2
      let suffixLen := nameLen - pref
      if p2 + suffixLen > buf.length then (p2, st.2.1, st.2.2.1, true)
      else
        let suffix := latin1 ((buf.drop p2).take suffixLen)
        let name := String.mk (st.2.1.toList.take pref) ++ suffix
        let arr := if id < count then st.2.2.1.set id name else st.2.2.1
        (p2 + suffixLen, name, arr, false)

/-- The per-category loop of `codec4.readNamebase`: returns the decoded
name array for one category and the stream position after it. -/
def nb4Category (buf : List Nat) (count maxFreq pos : Nat) : List String × Nat :=
  let idSize := if count > 65535 then 3 else 2
  let freqSize := if maxFreq > 65535 then 3 else if maxFreq > 255 then 2 else 1
  let stF := (List.range count).foldl
    (fun st _ => nb4Step buf count idSize freqSize st)
    (pos, "", List.replicate count "", false)
  (stF.2.2.1, stF.1)

/-- `codec4.readNamebase` (codec4.ts): front-coded entries in four
category blocks after a 36-byte header. -/
def codec4ReadNamebase (buf : List Nat) : List (List String) :=
  if buf.length < 12 then [[], [], [], [], []]
  else
    let o0 := nb4Category buf (read3BE buf 12) (read3BE buf 24) 36
    let o1 := nb4Category buf (read3BE buf 15) (read3BE buf 27) o0.2
    let o2 := nb4Category buf (read3BE buf 18) (read3BE buf 30) o1.2
    let o3 := nb4Category buf (read3BE buf 21) (read3BE buf 33) o2.2
    [o0.1, o1.1, o2.1, o3.1, []]

/-! ## Format-B codec (codec5.ts) -/

def SI5_RECORD_SIZE : Nat := 56

/-- One 56-byte little-endian record of the format-B index (codec5.ts). -/
def codec5Record (buf : List Nat) (base : Nat) : IndexEntry :=
  let w0 := readU32LE buf base
  let w1 := readU32LE buf (base + 4)
  let w2 := readU32LE buf (base + 8)
  let w3 := readU32LE buf (base + 12)
  let w4 := readU32LE buf (base + 16)
  let w5 := readU32LE buf (base + 20)
  let w6 := readU32LE buf (base + 24)
  let w8 := readU32LE buf (base + 32)
  let w9 := readU32LE buf (base + 36)
  let w11 := readU32LE buf (base + 44)
  { whiteId := w0 &&& 0x0FFFFFFF,
    blackId := w1 &&& 0x0FFFFFFF,
    eventId := w2 &&& 0x0FFFFFFF,
    siteId := w3,
    roundId := w4 &&& 0x7FFFFFFF,
    whiteElo := (w5 >>> 20) &&& 0xFFF,
    blackElo := (w6 >>> 20) &&& 0xFFF,
    date := w5 &&& 0xFFFFF,
    result := (w11 >>> 16) &&& 0x3,
    eco := w11 &&& 0xFFFF,
    gameOffset := (w8 &&& 0x7FFF) * 0x100000000 + w9,
    gameLength := (w8 >>> 15) &&& 0x1FFFF }

/-- `codec5.readIndex` (codec5.ts). -/
def codec5ReadIndex (buf : List Nat) : List IndexEntry :=
  (List.range (buf.length / SI5_RECORD_SIZE)).map
    (fun i => codec5Record buf (i * SI5_RECORD_SIZE))

/-- The LEB128 varint loop of `codec5.readNamebase`, over the remaining
bytes; `none` models the source's early `return names` when the stream
ends inside a varint. -/
def readVarint : List Nat → Nat → Nat → Option (Nat × List Nat)
  | [], _, _ => none
  | byte :: rest, varint, shift =>
    let v := varint ||| ((byte &&& 0x7F) <<< shift)
    if byte &&& 0x80 ≠ 0 then readVarint rest v (shift + 7) else some (v, rest)

theorem readVarint_length_lt :
    ∀ (l : List Nat) (a s v : Nat) (r : List Nat),
      readVarint l a s = some (v, r) → r.length < l.length := by
  intro l
  induction l with
  | nil => intro a s v r h; simp [readVarint] at h
  | cons byte rest ih =>
    intro a s v r h
    simp only [readVarint] at h
    split at h
    · exact Nat.lt_trans (ih _ _ _ _ h) (Nat.lt_succ_self _)
    · simp at h
      simp [h.2]

/-- The entry loop of `codec5.readNamebase` (codec5.ts).  The source
decodes the string bytes as UTF-8; the model reads them byte-per-char,
which agrees on ASCII data (no claim depends on the decoded text). -/
def nb5Aux : List Nat → List (List String) → List (List String)
  | [], names => names
  | byte :: rest, names =>
    match h : readVarint (byte :: rest) 0 0 with
    | none => names
    | some (varint, r1) =>
      let nameType := varint &&& 0x07
      let strLen := varint >>> 3
      if strLen > r1.length then names
      else
        let str := latin1 (r1.take strLen)
        let names' :=
          if nameType < names.length then
            names.set nameType (names.getD nameType [] ++ [str])
          else names
        nb5Aux (r1.drop strLen) names'
termination_by l _ => l.length
decreasing_by
  have := readVarint_length_lt (byte :: rest) 0 0 varint r1 h
  simp only [List.length_cons, List.length_drop] at *
  omega

/-- `codec5.readNamebase` (codec5.ts). -/
def codec5ReadNamebase (buf : List Nat) : List (List String) :=
  nb5Aux buf [[], [], [], [], []]

/-! ## Database facade (index.ts) -/

/-- `ScidCodec` (types.ts), with the byte buffers as lists. -/
structure ScidCodec where
  readIndex : List Nat → List IndexEntry
  readNamebase : List Nat → List (List String)
  gameFileExt : String

def codec4 : ScidCodec := ⟨codec4ReadIndex, codec4ReadNamebase, ".sg4"⟩

def codec5 : ScidCodec := ⟨codec5ReadIndex, codec5ReadNamebase, ".sg5"⟩

/-- The in-memory state of an opened `ScidDatabase`. -/
structure ScidDb where
  entries : List IndexEntry
  names : List (List String)
  gameExt : String
deriving Repr, DecidableEq

/-- `path.substring(path.lastIndexOf("."))`; with no dot, `lastIndexOf`
gives -1 and `substring` clamps to 0, returning the whole string. -/
def extOf (path : String) : String :=
  match path.toList.reverse.findIdx? (fun c => c = '.') with
  | none => path
  | some k => String.mk (path.toList.drop (path.toList.length - 1 - k))

/-- `ScidDatabase.open(path)` (index.ts), with the two file reads the
source performs through `fs` handed in as buffers.  The only failure is
the unsupported-extension `Error`; the codec readers never raise. -/
def openDb (path : String) (indexBuf nbBuf : List Nat) : Except String ScidDb :=
  let ext := jsToLower (extOf path)
  if ext = ".si5" then
    .ok ⟨codec5.readIndex indexBuf, codec5.readNamebase nbBuf, codec5.gameFileExt⟩
  else if ext = ".si4" then
    .ok ⟨codec4.readIndex indexBuf, codec4.readNamebase nbBuf, codec4.gameFileExt⟩
  else
    .error ("Unsupported SCID file extension: " ++ ext)

/-- `resolveName(type, id)` (index.ts): `typeNames[id] || "?"` maps both a
missing and an empty-string entry to `"?"`. -/
def resolveName (names : List (List String)) (t id : Nat) : String :=
  match names.get? t with
  | none => "?"
  | some typeNames =>
    if id ≥ typeNames.length then "?"
    else if typeNames.getD id "" = "" then "?"
    else typeNames.getD id ""

/-- `ScidGameHeaders` (types.ts). -/
structure ScidGameHeaders where
  white : String
  black : String
  event : String
  site : String
  round : String
  date : String
  result : String
  whiteElo : Nat
  blackElo : Nat
  eco : String
deriving Repr, DecidableEq

/-- `getHeaders(n)` (index.ts). -/
def ScidDb.getHeaders (db : ScidDb) (n : Nat) : ScidGameHeaders :=
  match db.entries.get? n with
  | none =>
    { white := "?", black := "?", event := "?", site := "?", round := "?",
      date := "????.??.??", result := "*", whiteElo := 0, blackElo := 0, eco := "" }
  | some e =>
    { white := resolveName db.names NAME_PLAYER e.whiteId,
      black := resolveName db.names NAME_PLAYER e.blackId,
      event := resolveName db.names NAME_EVENT e.eventId,
      site := resolveName db.names NAME_SITE e.siteId,
      round := resolveName db.names NAME_ROUND e.roundId,
      date := decodeDate e.date,
      result := resultToString e.result,
      whiteElo := e.whiteElo,
      blackElo := e.blackElo,
      eco := decodeEco e.eco }

/-- `"needle" ⊑ hay` as `String.prototype.includes`. -/
def listStartsWith : List Char → List Char → Bool
  | _, [] => true
  | [], _ :: _ => false
  | c :: cs, d :: ds => c == d && listStartsWith cs ds

def listIncludes : List Char → List Char → Bool
  | [], needle => needle.isEmpty
  | c :: t, needle => listStartsWith (c :: t) needle || listIncludes t needle

/-- `hay.includes(needle)`. -/
def jsIncludes (hay needle : String) : Bool := listIncludes hay.toList needle.toList

/-- The per-entry match test of `search` (index.ts lines 114-127). -/
def matchesEntry (names : List (List String)) (lowerQuery : String)
    (e : IndexEntry) : Bool :=
  jsIncludes (jsToLower (resolveName names NAME_PLAYER e.whiteId)) lowerQuery ||
  jsIncludes (jsToLower (resolveName names NAME_PLAYER e.blackId)) lowerQuery ||
  jsIncludes (jsToLower (resolveName names NAME_EVENT e.eventId)) lowerQuery ||
  jsIncludes (jsToLower (resolveName names NAME_SITE e.siteId)) lowerQuery ||
  jsIncludes (jsToLower (decodeEco e.eco)) lowerQuery

structure SearchOut where
  results : List Nat
  total : Nat
deriving Repr, DecidableEq

/-- The unpaginated match list of `search`: the `matches` array after the
scan loop. -/
def ScidDb.matchList (db : ScidDb) (query : String) : List Nat :=
  (List.range db.entries.length).filter
    (fun i => matchesEntry db.names (jsToLower query) (db.entries.getD i defaultEntry))

/-- `search(query, offset, limit)` (index.ts);
`matches.slice(offset, offset + limit)` is drop-then-take. -/
def ScidDb.search (db : ScidDb) (query : String) (offset limit : Nat) : SearchOut :=
  ⟨((db.matchList query).drop offset).take limit, (db.matchList query).length⟩

/-! ## Auxiliary lemmas -/

/-- `resolveName` never returns the empty string: every branch returns
either `"?"` or a dictionary entry guarded to be nonempty. -/
theorem resolveName_ne_empty (names : List (List String)) (t id : Nat) :
    resolveName names t id ≠ "" := by
  unfold resolveName
  match h : names.get? t with
  | none => simp
  | some typeNames =>
    simp only []
    split
    · simp
    · split
      · simp
      · assumption

/-! ## Claim theorems -/

/-- Claim C9: applying a null move flips the side to move and clears the
en-passant square and changes nothing else — the 64 square-to-slot
entries, all 32 piece records (type, color, square), both piece lists and
both piece counts are unchanged. -/
theorem claim_C9_null_move_frame (b : Board) (src dst : Int)
    (promo : Option Nat) (isCastle : Bool) :
    (b.applyMove src dst promo isCastle true).board = b.board ∧
    (b.applyMove src dst promo isCastle true).pieces = b.pieces ∧
    (b.applyMove src dst promo isCastle true).listW = b.listW ∧
    (b.applyMove src dst promo isCastle true).listB = b.listB ∧
    (b.applyMove src dst promo isCastle true).countW = b.countW ∧
    (b.applyMove src dst promo isCastle true).countB = b.countB ∧
    (b.applyMove src dst promo isCastle true).epSquare = -1 ∧
    (b.applyMove src dst promo isCastle true).sideToMove = 1 - b.sideToMove ∧
    (b.sideToMove = WHITE → (b.applyMove src dst promo isCastle true).sideToMove = BLACK) ∧
    (b.sideToMove = BLACK → (b.applyMove src dst promo isCastle true).sideToMove = WHITE) := by
  unfold Board.applyMove
  simp only [if_pos rfl, WHITE, BLACK]
  refine ⟨rfl, rfl, rfl, rfl, rfl, rfl, rfl, rfl, ?_, ?_⟩ <;>
    intro h <;> simp [h]

/-- Witness for C9 at the standard start position. -/
theorem claim_C9_null_move_frame_witness :
    (setupStartPosition.applyMove 0 0 none false true).sideToMove = BLACK :=
  (claim_C9_null_move_frame setupStartPosition 0 0 none false).2.2.2.2.2.2.2.2.1 rfl

/-- Claim C10: `resolveName` returns `"?"` also when the dictionary entry
at a valid ID is the empty string, and consequently `getHeaders` never
returns the empty string for white, black, event, site or round. -/
theorem claim_C10_empty_name_resolution
    (names : List (List String)) (t id : Nat) (l : List String)
    (db : ScidDb) (n : Nat)
    (h1 : names.get? t = some l) (h2 : l.get? id = some "") :
    resolveName names t id = "?" ∧
    (db.getHeaders n).white ≠ "" ∧
    (db.getHeaders n).black ≠ "" ∧
    (db.getHeaders n).event ≠ "" ∧
    (db.getHeaders n).site ≠ "" ∧
    (db.getHeaders n).round ≠ "" := by
  refine ⟨?_, ?_, ?_, ?_, ?_, ?_⟩
  · unfold resolveName
    rw [h1]
    simp only []
    have hlt : id < l.length := (List.get?_eq_some.mp h2).1
    rw [if_neg (by omega)]
    have hd : l.getD id "" = "" := by
      simp only [List.getD, ← List.get?_eq_getElem?, h2, Option.getD_some]
    rw [if_pos hd]
  all_goals
    unfold ScidDb.getHeaders
    match hdb : db.entries.get? n with
    | none => simp
    | some e => simp [resolveName_ne_empty]

/-- Witness for C10 on a one-entry dictionary holding the empty string. -/
theorem claim_C10_empty_name_resolution_witness :
    resolveName [[""]] 0 0 = "?" ∧
    ((⟨[], [], ""⟩ : ScidDb).getHeaders 0).white ≠ "" ∧
    ((⟨[], [], ""⟩ : ScidDb).getHeaders 0).black ≠ "" ∧
    ((⟨[], [], ""⟩ : ScidDb).getHeaders 0).event ≠ "" ∧
    ((⟨[], [], ""⟩ : ScidDb).getHeaders 0).site ≠ "" ∧
    ((⟨[], [], ""⟩ : ScidDb).getHeaders 0).round ≠ "" :=
  claim_C10_empty_name_resolution [[""]] 0 0 [""] ⟨[], [], ""⟩ 0 rfl rfl

/-- Claim C4: queen decoding — codes 8-15 give rank `code − 8` on the
queen's file; codes 0-7 different from the queen's file give file `code`
on the queen's rank; a code equal to the queen's file pulls exactly one
extra byte and the destination is that byte minus 64, so a queen on d1
with code 3 and extra byte 103 decodes to h5 (square 39). -/
theorem claim_C4_queen_decode (fromSq : Int) (code : Nat) (rest r' : List Nat)
    (v : Nat) (hcode : code < 16) :
    (8 ≤ code →
      decodeQueen fromSq code rest = (((code : Int) - 8) * 8 + squareFile fromSq, rest)) ∧
    (code < 8 → (code : Int) ≠ squareFile fromSq →
      decodeQueen fromSq code rest = (squareRank fromSq * 8 + (code : Int), rest)) ∧
    ((code : Int) = squareFile fromSq →
      decodeQueen fromSq code (v :: r') = ((v : Int) - 64, r')) ∧
    decodeQueen 3 3 (103 :: r') = (39, r') := by
  have hfile0 : 0 ≤ squareFile fromSq := Int.emod_nonneg fromSq (by norm_num)
  have hfile8 : squareFile fromSq < 8 := Int.emod_lt_of_pos fromSq (by norm_num)
  refine ⟨?_, ?_, ?_, ?_⟩
  · intro h8
    unfold decodeQueen
    rw [if_neg (by omega)]
  · intro h8 hne
    unfold decodeQueen
    rw [if_pos h8, if_neg hne]
  · intro heq
    have h8 : code < 8 := by
      by_contra hc
      have : (8 : Int) ≤ (code : Int) := by exact_mod_cast Nat.le_of_not_lt hc
      omega
    unfold decodeQueen
    rw [if_pos h8, if_pos heq]
    simp [pullByte]
  · rfl

/-- Witness for C4: all three queen cases at concrete inputs (d1 vertical
code 12 → d5, d1 horizontal code 6 → g1, d1 diagonal code 3 byte 103 →
h5). -/
theorem claim_C4_queen_decode_witness :
    decodeQueen 3 12 [] = (35, []) ∧
    decodeQueen 3 6 [] = (6, []) ∧
    decodeQueen 3 3 [103] = (39, []) := by
  have h := claim_C4_queen_decode 3 12 [] [] 103 (by norm_num)
  have h2 := claim_C4_queen_decode 3 6 [] [] 103 (by norm_num)
  have h3 := claim_C4_queen_decode 3 3 [] [] 103 (by norm_num)
  exact ⟨by simpa [squareFile] using h.1 (by norm_num),
         by simpa [squareFile, squareRank] using h2.2.1 (by norm_num) (by decide),
         h3.2.2.1 (by decide)⟩

/-- Claim C5: pawn codes 3-14 are promotions with
`promoCode = code − 3`, direction `promoCode % 3` (0 = capture toward the
mover's left, 1 = forward, 2 = capture toward the mover's right, where
left is file−1 for White and file+1 for Black) and promotion piece
`promoCode / 3` in the order queen, rook, bishop, knight; a white pawn on
e7 with code 4 promotes forward to a queen on e8, with code 14 it captures
right to a knight on f8. -/
theorem claim_C5_pawn_promotion (fromSq : Int) (code c : Nat)
    (h3 : 3 ≤ code) (h14 : code ≤ 14) :
    ((code - 3) % 3 = 0 →
      (decodePawn fromSq code c).1 =
        fromSq + (if c = WHITE then 8 else -8) + (if c = WHITE then -1 else 1)) ∧
    ((code - 3) % 3 = 1 →
      (decodePawn fromSq code c).1 = fromSq + (if c = WHITE then 8 else -8)) ∧
    ((code - 3) % 3 = 2 →
      (decodePawn fromSq code c).1 =
        fromSq + (if c = WHITE then 8 else -8) - (if c = WHITE then -1 else 1)) ∧
    (decodePawn fromSq code c).2 = some (PROMO_PIECES.getD ((code - 3) / 3) QUEEN) ∧
    decodePawn 52 4 WHITE = (60, some QUEEN) ∧
    decodePawn 52 14 WHITE = (61, some KNIGHT) := by
  have hne15 : ¬(code = 15) := by omega
  have hgt2 : ¬(code ≤ 2) := by omega
  refine ⟨?_, ?_, ?_, ?_, by decide, by decide⟩
  · intro h0
    simp only [decodePawn, if_neg hne15, if_neg hgt2, h0]
    norm_num
  · intro h1
    simp only [decodePawn, if_neg hne15, if_neg hgt2, h1]
    norm_num
  · intro h2
    simp only [decodePawn, if_neg hne15, if_neg hgt2, h2]
    norm_num
  · simp only [decodePawn, if_neg hne15, if_neg hgt2]

/-- Witness for C5 at a black pawn on d2, code 8 (rook promotion,
capture toward Black's right, i.e. toward the c-file). -/
theorem claim_C5_pawn_promotion_witness :
    (decodePawn 11 8 BLACK).1 = 2 ∧
    (decodePawn 11 8 BLACK).2 = some ROOK := by
  have h := claim_C5_pawn_promotion 11 8 BLACK (by norm_num) (by norm_num)
  refine ⟨?_, ?_⟩
  · have := h.2.2.1 (by norm_num)
    simpa [WHITE, BLACK] using this
  · have := h.2.2.2.1
    simpa [PROMO_PIECES] using this

/-- The non-marker branch never produces a marker: every piece dispatch
returns a `move` (or the unknown-piece-type error). -/
theorem decodePieceMove_ne_marker (b : Board) (i c : Nat) (rest : List Nat)
    (k : MarkerKind) (v : Option Nat) :
    (decodePieceMove b i c rest).1 ≠ .marker k v := by
  simp only [decodePieceMove]
  split_ifs <;> simp [finishMove]

/-- A move produced by the non-marker branch starts from the square of the
piece at the decoded piece-list index of the side to move. -/
theorem decodePieceMove_move_src (b : Board) (i c : Nat) (rest : List Nat)
    (m : ScidMove) (s d : Int) (p : Option Nat) (ic inl : Bool)
    (h : (decodePieceMove b i c rest).1 = .move m s d p ic inl) :
    s = (b.getPiece b.getSideToMove i).square := by
  simp only [decodePieceMove] at h
  split_ifs at h <;>
    first
      | (simp only [finishMove, DecodeOut.move.injEq] at h
         exact h.2.1.symm)
      | simp at h

/-- Claim C1: `decodeMoveOrMarker` returns a stream marker exactly when
the byte's upper nibble (the piece-list index) is 0 and its lower nibble
is 11-15, with 11 = annotation tag (nag), 12 = comment, 13 = variation
start, 14 = variation end, 15 = end of game; any other byte is dispatched
to the move decoder for the piece at that piece-list index of the side to
move. -/
theorem claim_C1_marker_iff (b : Board) (byte : Nat) (rest : List Nat)
    (hb : byte < 256) :
    ((∃ k v r', decodeMoveOrMarker b byte rest = (.marker k v, r')) ↔
      ((byte >>> 4) &&& 15 = 0 ∧ 11 ≤ byte &&& 15)) ∧
    decodeMoveOrMarker b 11 rest =
      (.marker .nagMarker (some (pullByte rest).1), (pullByte rest).2) ∧
    decodeMoveOrMarker b 12 rest = (.marker .commentMarker none, rest) ∧
    decodeMoveOrMarker b 13 rest = (.marker .startVariation none, rest) ∧
    decodeMoveOrMarker b 14 rest = (.marker .endVariation none, rest) ∧
    decodeMoveOrMarker b 15 rest = (.marker .endGame none, rest) ∧
    (¬((byte >>> 4) &&& 15 = 0 ∧ 11 ≤ byte &&& 15) →
      decodeMoveOrMarker b byte rest =
        decodePieceMove b ((byte >>> 4) &&& 15) (byte &&& 15) rest) ∧
    (∀ m s d p ic inl, (decodeMoveOrMarker b byte rest).1 = .move m s d p ic inl →
      s = (b.getPiece b.getSideToMove ((byte >>> 4) &&& 15)).square) := by
  have hnm : ¬((byte >>> 4) &&& 15 = 0 ∧ 11 ≤ byte &&& 15) →
      decodeMoveOrMarker b byte rest =
        decodePieceMove b ((byte >>> 4) &&& 15) (byte &&& 15) rest := by
    intro hcond
    unfold decodeMoveOrMarker
    rw [if_neg (by simpa [ENCODE_NAG] using hcond)]
  refine ⟨⟨?_, ?_⟩, rfl, rfl, rfl, rfl, rfl, hnm, ?_⟩
  · rintro ⟨k, v, r', hk⟩
    by_contra hcond
    rw [hnm hcond] at hk
    exact decodePieceMove_ne_marker b _ _ rest k v (by rw [hk])
  · rintro ⟨h0, h11⟩
    have hc : byte &&& 15 ≤ 15 := Nat.and_le_right
    have : byte &&& 15 = 11 ∨ byte &&& 15 = 12 ∨ byte &&& 15 = 13 ∨
        byte &&& 15 = 14 ∨ byte &&& 15 = 15 := by omega
    unfold decodeMoveOrMarker
    rw [if_pos ⟨h0, by simpa [ENCODE_NAG] using h11⟩]
    rcases this with h | h | h | h | h <;>
      simp [h, ENCODE_NAG, ENCODE_COMMENT, ENCODE_START_MARKER, ENCODE_END_MARKER,
        ENCODE_END_GAME] <;> exact ⟨_, _, _, rfl⟩
  · intro m s d p ic inl h
    by_cases hcond : (byte >>> 4) &&& 15 = 0 ∧ 11 ≤ byte &&& 15
    · exfalso
      obtain ⟨h0, h11⟩ := hcond
      have hc : byte &&& 15 ≤ 15 := Nat.and_le_right
      have h5 : byte &&& 15 = 11 ∨ byte &&& 15 = 12 ∨ byte &&& 15 = 13 ∨
          byte &&& 15 = 14 ∨ byte &&& 15 = 15 := by omega
      unfold decodeMoveOrMarker at h
      rw [if_pos ⟨h0, by simpa [ENCODE_NAG] using h11⟩] at h
      rcases h5 with hx | hx | hx | hx | hx <;>
        simp [hx, ENCODE_NAG, ENCODE_COMMENT, ENCODE_START_MARKER, ENCODE_END_MARKER,
          ENCODE_END_GAME] at h
    · rw [hnm hcond] at h
      exact decodePieceMove_move_src b _ _ rest m s d p ic inl h

/-- Witness for C1: byte 0x61 (piece index 6, code 1) on the start
position is not a marker and dispatches to the piece decoder. -/
theorem claim_C1_marker_iff_witness :
    decodeMoveOrMarker setupStartPosition 97 [] =
      decodePieceMove setupStartPosition ((97 >>> 4) &&& 15) (97 &&& 15) [] :=
  (claim_C1_marker_iff setupStartPosition 97 [] (by norm_num)).2.2.2.2.2.2.1 (by decide)

/-- Claim C7 counterexample: on the annotation-tag marker byte 11 with a
following value byte 7, `decodeMoveOrMarker` itself consumes the value
byte through its `readNextByte` callback — the remaining stream it
reports is empty, not the original `[7]` — refuting the claim that the
function does not read the value byte and that its caller does. -/
theorem claim_C7_counterexample :
    (decodeMoveOrMarker setupStartPosition 11 [7]).2 ≠ [7] ∧
    decodeMoveOrMarker setupStartPosition 11 [7] =
      (.marker .nagMarker (some 7), []) := by
  exact ⟨by decide, rfl⟩

/-- Claim C7 as amended: `decodeMoveOrMarker` itself reads the one value
byte following an annotation-tag marker (returning it as the marker's
`nag` value and consuming it from the stream), and the game-stream parser
consumes no further byte for the tag and discards the value — its state
(board, accumulated main line, depth, stack) continues unchanged past the
two bytes — so exactly one byte beyond the marker byte is consumed in
total. -/
theorem claim_C7_amended (b : Board) (v : Nat) (rest : List Nat)
    (board : Board) (moves : List ScidMove) (depth : Int) (stack : List Board)
    (preMove : Board) :
    decodeMoveOrMarker b 11 (v :: rest) = (.marker .nagMarker (some v), rest) ∧
    parseMoveStream (11 :: v :: rest) board moves depth stack preMove =
      parseMoveStream rest board moves depth stack preMove := by
  have hdec : decodeMoveOrMarker board 11 (v :: rest) =
      (.marker .nagMarker (some v), rest) := rfl
  exact ⟨rfl, by rw [parseMoveStream, hdec]⟩

/-- Claim C6 counterexample: opening a 10-byte (truncated-header) format-A
index does not fail — it succeeds with an empty entry list, refuting
"fails with a distinct format-error kind ... no partially opened
handle". -/
theorem claim_C6_counterexample :
    openDb "test.si4" [83, 99, 105, 100, 0, 0, 0, 0, 0, 0] [] =
      .ok ⟨[], [[], [], [], [], []], ".sg4"⟩ := by
  rfl

/-- Claim C6 as amended: format errors are not detected at open time — a
format-A index buffer shorter than the 182-byte header yields an
empty entry list rather than an error (and the magic bytes are never
inspected); `open` succeeds for any buffer contents under a recognized
extension, and its only failure is the unsupported-file-extension
error. -/
theorem claim_C6_amended (path : String) (idxBuf nbBuf : List Nat) (e : String)
    (hlen : idxBuf.length < 182) :
    codec4ReadIndex idxBuf = [] ∧
    (jsToLower (extOf path) = ".si4" →
      openDb path idxBuf nbBuf =
        .ok ⟨codec4ReadIndex idxBuf, codec4ReadNamebase nbBuf, ".sg4"⟩) ∧
    (openDb path idxBuf nbBuf = .error e →
      jsToLower (extOf path) ≠ ".si4" ∧ jsToLower (extOf path) ≠ ".si5") := by
  refine ⟨?_, ?_, ?_⟩
  · unfold codec4ReadIndex
    rw [if_pos (by simpa [SI4_HEADER_SIZE] using hlen)]
  · intro h4
    have h5 : jsToLower (extOf path) ≠ ".si5" := by rw [h4]; decide
    simp only [openDb, if_neg h5, if_pos h4]
    rfl
  · intro he
    have h4 : jsToLower (extOf path) ≠ ".si4" := by
      intro hx
      have h5 : jsToLower (extOf path) ≠ ".si5" := by rw [hx]; decide
      simp only [openDb, if_neg h5, if_pos hx] at he
      exact Except.noConfusion he
    have h5 : jsToLower (extOf path) ≠ ".si5" := by
      intro hx
      simp only [openDb, if_pos hx] at he
      exact Except.noConfusion he
    exact ⟨h4, h5⟩

/-- Witness for C6 (amended) on a 3-byte index buffer and path `a.si4`. -/
theorem claim_C6_amended_witness :
    codec4ReadIndex [1, 2, 3] = [] ∧
    (jsToLower (extOf "a.si4") = ".si4" →
      openDb "a.si4" [1, 2, 3] [] =
        .ok ⟨codec4ReadIndex [1, 2, 3], codec4ReadNamebase [], ".sg4"⟩) ∧
    (openDb "a.si4" [1, 2, 3] [] = .error "x" →
      jsToLower (extOf "a.si4") ≠ ".si4" ∧ jsToLower (extOf "a.si4") ≠ ".si5") :=
  claim_C6_amended "a.si4" [1, 2, 3] [] "x" (by norm_num)

/-- Claim C8 as amended: `search` filters the entries in ascending
game-index order by a case-insensitive substring match over the resolved
white/black/event/site names and decoded ECO, pages the match list with
`slice(offset, offset + limit)`, and reports `total` as the unpaginated
match count; the two pages at `offset = 0` and `offset = 2` with
`limit = 2` are disjoint, report the same total, and their in-order
concatenation is the first four matches — a strict prefix, not the whole
match list, when there are five matches. -/
theorem claim_C8_amended (db : ScidDb) (q : String) (offset limit : Nat) :
    (db.search q offset limit).results = ((db.matchList q).drop offset).take limit ∧
    (db.search q offset limit).total = (db.matchList q).length ∧
    (∀ i ∈ db.matchList q, i < db.entries.length ∧
      matchesEntry db.names (jsToLower q) (db.entries.getD i defaultEntry) = true) ∧
    List.Sorted (· < ·) (db.matchList q) ∧
    List.Sorted (· < ·) (db.search q offset limit).results ∧
    (db.search q 0 2).results ++ (db.search q 2 2).results = (db.matchList q).take 4 ∧
    List.Disjoint (db.search q 0 2).results (db.search q 2 2).results ∧
    (db.search q 0 2).total = (db.search q 2 2).total ∧
    (∀ q', jsToLower q = jsToLower q' →
      db.search q offset limit = db.search q' offset limit) := by
  have hsorted : List.Sorted (· < ·) (db.matchList q) :=
    List.Pairwise.sublist (List.filter_sublist _) (List.sorted_lt_range _)
  have hnodup : (db.matchList q).Nodup :=
    (List.nodup_range _).filter _
  refine ⟨rfl, rfl, ?_, hsorted, ?_, ?_, ?_, rfl, ?_⟩
  · intro i hi
    unfold ScidDb.matchList at hi
    have := List.of_mem_filter hi
    have hmem := List.mem_of_mem_filter hi
    exact ⟨List.mem_range.mp hmem, by simpa using this⟩
  · exact List.Pairwise.sublist
      ((List.take_sublist _ _).trans (List.drop_sublist _ _)) hsorted
  · show ((db.matchList q).drop 0).take 2 ++ ((db.matchList q).drop 2).take 2 = _
    rw [List.drop_zero, ← List.take_add]
  · show List.Disjoint (((db.matchList q).drop 0).take 2) (((db.matchList q).drop 2).take 2)
    rw [List.drop_zero]
    exact fun a ha hb =>
      (List.disjoint_take_drop hnodup (Nat.le_refl 2)) ha (List.take_subset _ _ hb)
  · intro q' hq
    unfold ScidDb.search ScidDb.matchList
    rw [hq]

/-- The five-game corpus for the C8 counterexample: each entry's white
player resolves to "Alice", so the query "Ali" matches all five games. -/
def db5 : ScidDb := ⟨List.replicate 5 defaultEntry, [["Alice"], [], [], []], ".sg5"⟩

/-- Claim C8 counterexample: on a corpus with exactly five matches, the
two pages `offset = 0` and `offset = 2` at `limit = 2` both report
`total = 5`, but their in-order union is NOT the full unpaginated match
list (the fifth match is missing), refuting the claim's pagination
consequence. -/
theorem claim_C8_counterexample :
    (db5.search "Ali" 0 2).results ++ (db5.search "Ali" 2 2).results ≠
      db5.matchList "Ali" ∧
    (db5.search "Ali" 0 2).results = [0, 1] ∧
    (db5.search "Ali" 2 2).results = [2, 3] ∧
    db5.matchList "Ali" = [0, 1, 2, 3, 4] ∧
    (db5.search "Ali" 0 2).total = 5 ∧
    (db5.search "Ali" 2 2).total = 5 := by
  decide

/-- Witness for C8 (amended): case-insensitivity of the paging on the
concrete corpus, at two spellings of the same query. -/
theorem claim_C8_amended_witness :
    db5.search "Ali" 0 2 = db5.search "aLI" 0 2 :=
  (claim_C8_amended db5 "Ali" 0 2).2.2.2.2.2.2.2.2 "aLI" (by decide)

/-! ### Single steps of the move/marker loop -/

theorem parseMoveStream_nil (board : Board) (moves : List ScidMove) (depth : Int)
    (stack : List Board) (preMove : Board) :
    parseMoveStream [] board moves depth stack preMove = .ok (moves, board) := by
  rw [parseMoveStream]

theorem parseMoveStream_move (byte : Nat) (rest : List Nat) (board : Board)
    (moves : List ScidMove) (depth : Int) (stack : List Board) (preMove : Board)
    (m : ScidMove) (s d : Int) (p : Option Nat) (ic inl : Bool) (r : List Nat)
    (h : decodeMoveOrMarker board byte rest = (.move m s d p ic inl, r)) :
    parseMoveStream (byte :: rest) board moves depth stack preMove =
      parseMoveStream r (board.applyMove s d p ic inl)
        (if depth = 0 then moves ++ [m] else moves) depth stack board := by
  rw [parseMoveStream, h]

theorem parseMoveStream_startVar (rest : List Nat) (board : Board)
    (moves : List ScidMove) (depth : Int) (stack : List Board) (preMove : Board) :
    parseMoveStream (13 :: rest) board moves depth stack preMove =
      parseMoveStream rest preMove moves (depth + 1) (stack ++ [board]) preMove := by
  have h : decodeMoveOrMarker board 13 rest = (.marker .startVariation none, rest) := rfl
  rw [parseMoveStream, h]

theorem parseMoveStream_endVar_single (rest : List Nat) (board : Board)
    (moves : List ScidMove) (depth : Int) (popped : Board) (preMove : Board) :
    parseMoveStream (14 :: rest) board moves depth [popped] preMove =
      parseMoveStream rest popped moves (depth - 1) [] preMove := by
  have h : decodeMoveOrMarker board 14 rest = (.marker .endVariation none, rest) := rfl
  rw [parseMoveStream, h]
  rfl

theorem parseMoveStream_endGame (rest : List Nat) (board : Board)
    (moves : List ScidMove) (depth : Int) (stack : List Board) (preMove : Board) :
    parseMoveStream (15 :: rest) board moves depth stack preMove = .ok (moves, board) := by
  have h : decodeMoveOrMarker board 15 rest = (.marker .endGame none, rest) := rfl
  rw [parseMoveStream, h]

/-- `parseGameData` on a game whose tag section is the single terminator
byte 0 and whose start-flag byte is 0 reduces to the move/marker loop from
the standard start position. -/
theorem parseGameData_moveSection (ms : List Nat) :
    parseGameData (0 :: 0 :: ms) =
      (match parseMoveStream ms setupStartPosition [] 0 [] setupStartPosition with
       | .ok mb => .ok (⟨[], mb.1, none⟩, mb.2)
       | .error e => .error e) := by
  have ht : parseTagsAux (0 :: 0 :: ms) [] = ([], 0 :: ms) := by
    rw [parseTagsAux]
    simp
  have hf : parseStartFlag (0 :: ms) = (none, ms) := rfl
  unfold parseGameData
  rw [ht]
  simp only [hf]

/-- Claim C2: a move section `m1, variation-start, m2, variation-end, m3,
end-of-game` parses to the main line `[m1, m3]` — the variation move `m2`
is excluded — and the parser's final board is the start position with `m1`
then `m3` applied; `m2` has no effect on it because variation-start rolls
the board back to the pre-move clone and variation-end restores the pushed
board.  The hypotheses say that each of the three bytes decodes to a move
without pulling extra stream bytes (`m2` decoding against the rolled-back
start position, `m3` against the after-`m1` board). -/
theorem claim_C2_variation_roundtrip
    (b1 b2 b3 : Nat) (m1 m2 m3 : ScidMove) (s1 d1 s2 d2 s3 d3 : Int)
    (p1 p2 p3 : Option Nat) (c1 c2 c3 n1 n2 n3 : Bool)
    (h1 : decodeMoveOrMarker setupStartPosition b1 [13, b2, 14, b3, 15] =
      (.move m1 s1 d1 p1 c1 n1, [13, b2, 14, b3, 15]))
    (h2 : decodeMoveOrMarker setupStartPosition b2 [14, b3, 15] =
      (.move m2 s2 d2 p2 c2 n2, [14, b3, 15]))
    (h3 : decodeMoveOrMarker (setupStartPosition.applyMove s1 d1 p1 c1 n1) b3 [15] =
      (.move m3 s3 d3 p3 c3 n3, [15])) :
    parseMoveStream [b1, 13, b2, 14, b3, 15] setupStartPosition [] 0 [] setupStartPosition =
      .ok ([m1, m3],
        (setupStartPosition.applyMove s1 d1 p1 c1 n1).applyMove s3 d3 p3 c3 n3) ∧
    parseGameData [0, 0, b1, 13, b2, 14, b3, 15] =
      .ok (⟨[], [m1, m3], none⟩,
        (setupStartPosition.applyMove s1 d1 p1 c1 n1).applyMove s3 d3 p3 c3 n3) := by
  have hstream :
      parseMoveStream [b1, 13, b2, 14, b3, 15] setupStartPosition [] 0 [] setupStartPosition =
        .ok ([m1, m3],
          (setupStartPosition.applyMove s1 d1 p1 c1 n1).applyMove s3 d3 p3 c3 n3) := by
    calc
      parseMoveStream [b1, 13, b2, 14, b3, 15] setupStartPosition [] 0 [] setupStartPosition
          = parseMoveStream [13, b2, 14, b3, 15]
              (setupStartPosition.applyMove s1 d1 p1 c1 n1) [m1] 0 [] setupStartPosition := by
            simpa using
              parseMoveStream_move b1 [13, b2, 14, b3, 15] setupStartPosition [] 0 []
                setupStartPosition m1 s1 d1 p1 c1 n1 [13, b2, 14, b3, 15] h1
      _ = parseMoveStream [b2, 14, b3, 15] setupStartPosition [m1] 1
            [setupStartPosition.applyMove s1 d1 p1 c1 n1] setupStartPosition := by
            simpa using
              parseMoveStream_startVar [b2, 14, b3, 15]
                (setupStartPosition.applyMove s1 d1 p1 c1 n1) [m1] 0 [] setupStartPosition
      _ = parseMoveStream [14, b3, 15] (setupStartPosition.applyMove s2 d2 p2 c2 n2) [m1] 1
            [setupStartPosition.applyMove s1 d1 p1 c1 n1] setupStartPosition := by
            simpa using
              parseMoveStream_move b2 [14, b3, 15] setupStartPosition [m1] 1
                [setupStartPosition.applyMove s1 d1 p1 c1 n1] setupStartPosition
                m2 s2 d2 p2 c2 n2 [14, b3, 15] h2
      _ = parseMoveStream [b3, 15] (setupStartPosition.applyMove s1 d1 p1 c1 n1) [m1] 0 []
            setupStartPosition := by
            simpa using
              parseMoveStream_endVar_single [b3, 15]
                (setupStartPosition.applyMove s2 d2 p2 c2 n2) [m1] 1
                (setupStartPosition.applyMove s1 d1 p1 c1 n1) setupStartPosition
      _ = parseMoveStream [15]
            ((setupStartPosition.applyMove s1 d1 p1 c1 n1).applyMove s3 d3 p3 c3 n3)
            [m1, m3] 0 [] (setupStartPosition.applyMove s1 d1 p1 c1 n1) := by
            simpa using
              parseMoveStream_move b3 [15] (setupStartPosition.applyMove s1 d1 p1 c1 n1)
                [m1] 0 [] setupStartPosition m3 s3 d3 p3 c3 n3 [15] h3
      _ = .ok ([m1, m3],
            (setupStartPosition.applyMove s1 d1 p1 c1 n1).applyMove s3 d3 p3 c3 n3) :=
            parseMoveStream_endGame []
              ((setupStartPosition.applyMove s1 d1 p1 c1 n1).applyMove s3 d3 p3 c3 n3)
              [m1, m3] 0 [] (setupStartPosition.applyMove s1 d1 p1 c1 n1)
  refine ⟨hstream, ?_⟩
  rw [parseGameData_moveSection, hstream]

/-- Witness for C2: the concrete stream `1.e4-style pawn push e2-e3,
variation start, pawn push d2-d3, variation end, knight g8-f6, end of
game` — main line `[e2e3, g8f6]`, final board = start with e2e3 and g8f6
applied. -/
theorem claim_C2_variation_roundtrip_witness :
    parseGameData [0, 0, 193, 13, 177, 14, 97, 15] =
      .ok (⟨[], [⟨"e2", "e3", none⟩, ⟨"g8", "f6", none⟩], none⟩,
        (setupStartPosition.applyMove 12 20 none false false).applyMove
          62 45 none false false) :=
  (claim_C2_variation_roundtrip 193 177 97
    ⟨"e2", "e3", none⟩ ⟨"d2", "d3", none⟩ ⟨"g8", "f6", none⟩
    12 20 11 19 62 45 none none none
    false false false false false false rfl rfl rfl).2

/-! ## The king-at-piece-list-head invariant (claim C3) -/

/-- The invariant on one piece list: if any listed slot holds a king, then
the piece at list position 0 is a king of the list's color. -/
def KingHeadInv (pieces : List Piece) (l : List Nat) (c : Nat) : Prop :=
  (∃ i ∈ l, (pieces.getD i emptyPiece).type = KING) →
    ((pieces.getD (l.getD 0 0) emptyPiece).type = KING ∧
     (pieces.getD (l.getD 0 0) emptyPiece).color = c)

instance (pieces : List Piece) (l : List Nat) (c : Nat) :
    Decidable (KingHeadInv pieces l c) := by
  unfold KingHeadInv; infer_instance

/-- `KingHeadInv` for color `c` of a board. -/
def Board.kingAtHead (b : Board) (c : Nat) : Prop :=
  KingHeadInv b.pieces (b.plist c) c

/-- The piece-list length bookkeeping the source maintains implicitly:
`list[color].length === listCount[color]`. -/
def Board.wf (b : Board) : Prop :=
  b.listW.length = b.countW ∧ b.listB.length = b.countB

instance (b : Board) : Decidable (b.wf) := by
  unfold Board.wf; infer_instance

/-- Master equation for `getD` after `set`. -/
theorem getD_set (pieces : List Piece) (i k : Nat) (p : Piece) :
    (pieces.set i p).getD k emptyPiece =
      if k = i ∧ k < pieces.length then p else pieces.getD k emptyPiece := by
  by_cases hk : k = i
  · subst hk
    by_cases hlt : k < pieces.length
    · rw [if_pos ⟨rfl, hlt⟩]
      rw [List.getD_eq_getElem?_getD, List.getElem?_set_self hlt]
      rfl
    · rw [if_neg (fun hc => hlt hc.2)]
      rw [List.set_eq_of_length_le (Nat.le_of_not_lt hlt)]
  · rw [if_neg (fun hc => hk hc.1)]
    rw [List.getD_eq_getElem?_getD, List.getElem?_set_ne (fun hik => hk hik.symm),
      ← List.getD_eq_getElem?_getD]

/-- Setting a slot to a piece of the same type and color preserves the
invariant (models `piece.square = ...` mutations). -/
theorem kingHeadInv_set_type_eq (pieces : List Piece) (l : List Nat) (c i : Nat)
    (p : Piece)
    (ht : p.type = (pieces.getD i emptyPiece).type)
    (hc : p.color = (pieces.getD i emptyPiece).color)
    (h : KingHeadInv pieces l c) : KingHeadInv (pieces.set i p) l c := by
  have hpt : ∀ k, ((pieces.set i p).getD k emptyPiece).type =
      (pieces.getD k emptyPiece).type := by
    intro k
    rw [getD_set]
    split
    · next hcase => rw [ht, hcase.1]
    · rfl
  have hpc : ∀ k, ((pieces.set i p).getD k emptyPiece).color =
      (pieces.getD k emptyPiece).color := by
    intro k
    rw [getD_set]
    split
    · next hcase => rw [hc, hcase.1]
    · rfl
  rintro ⟨j, hj, hjk⟩
  have hold := h ⟨j, hj, by rw [← hpt j]; exact hjk⟩
  exact ⟨by rw [hpt]; exact hold.1, by rw [hpc]; exact hold.2⟩

/-- Setting a non-king slot to a non-king piece preserves the invariant
(models promotion writes and capture erasure outside the list). -/
theorem kingHeadInv_set_nonking (pieces : List Piece) (l : List Nat) (c i : Nat)
    (p : Piece)
    (hp : p.type ≠ KING) (holdp : (pieces.getD i emptyPiece).type ≠ KING)
    (h : KingHeadInv pieces l c) : KingHeadInv (pieces.set i p) l c := by
  have hrefl : ∀ k, ((pieces.set i p).getD k emptyPiece).type = KING →
      (pieces.getD k emptyPiece).type = KING := by
    intro k hk
    rw [getD_set] at hk
    split at hk
    · exact absurd hk hp
    · exact hk
  rintro ⟨j, hj, hjk⟩
  have holdex := h ⟨j, hj, hrefl j hjk⟩
  have hd_ne : ¬(l.getD 0 0 = i ∧ l.getD 0 0 < pieces.length) := by
    intro hcontra
    exact holdp (hcontra.1 ▸ holdex.1)
  constructor
  · rw [getD_set, if_neg hd_ne]
    exact holdex.1
  · rw [getD_set, if_neg hd_ne]
    exact holdex.2

theorem setPlist_pieces (b : Board) (c : Nat) (l : List Nat) :
    (b.setPlist c l).pieces = b.pieces := by
  unfold Board.setPlist; split <;> rfl

theorem setPcount_pieces (b : Board) (c : Nat) (n : Nat) :
    (b.setPcount c n).pieces = b.pieces := by
  unfold Board.setPcount; split <;> rfl

theorem setBoardAt_pieces (b : Board) (sq v : Int) :
    (b.setBoardAt sq v).pieces = b.pieces := by
  unfold Board.setBoardAt; split <;> rfl

theorem setBoardAt_listW (b : Board) (sq v : Int) :
    (b.setBoardAt sq v).listW = b.listW := by
  unfold Board.setBoardAt; split <;> rfl

theorem setBoardAt_listB (b : Board) (sq v : Int) :
    (b.setBoardAt sq v).listB = b.listB := by
  unfold Board.setBoardAt; split <;> rfl

theorem setBoardAt_plist (b : Board) (sq v : Int) (c : Nat) :
    (b.setBoardAt sq v).plist c = b.plist c := by
  unfold Board.plist
  split <;> simp [setBoardAt_listW, setBoardAt_listB]

theorem setBoardAt_countW (b : Board) (sq v : Int) :
    (b.setBoardAt sq v).countW = b.countW := by
  unfold Board.setBoardAt; split <;> rfl

theorem setBoardAt_countB (b : Board) (sq v : Int) :
    (b.setBoardAt sq v).countB = b.countB := by
  unfold Board.setBoardAt; split <;> rfl

theorem setBoardAt_wf (b : Board) (sq v : Int) : (b.setBoardAt sq v).wf ↔ b.wf := by
  unfold Board.wf
  rw [setBoardAt_listW, setBoardAt_listB, setBoardAt_countW, setBoardAt_countB]

theorem setBoardAt_kingAtHead (b : Board) (sq v : Int) (c : Nat) :
    (b.setBoardAt sq v).kingAtHead c ↔ b.kingAtHead c := by
  unfold Board.kingAtHead
  rw [setBoardAt_pieces, setBoardAt_plist]

/-- The list surgery of `removePiece` on the removed piece's own list
(the found case), combined with the slot erasure, preserves the
invariant when the removed piece is not a king. -/
theorem kingHeadInv_remove_list (pieces : List Piece) (l : List Nat) (c absIdx : Nat)
    (pDead : Piece) (hdead : pDead.type ≠ KING)
    (hfound : l.indexOf absIdx < l.length)
    (hnk : (pieces.getD absIdx emptyPiece).type ≠ KING)
    (h : KingHeadInv pieces l c) :
    KingHeadInv (pieces.set absIdx pDead)
      ((if l.indexOf absIdx < l.length - 1 then
          l.set (l.indexOf absIdx) (l.getD (l.length - 1) 0)
        else l).take (l.length - 1)) c := by
  have hrefl : ∀ k, ((pieces.set absIdx pDead).getD k emptyPiece).type = KING →
      (pieces.getD k emptyPiece).type = KING := by
    intro k hk
    rw [getD_set] at hk
    split at hk
    · exact absurd hk hdead
    · exact hk
  rintro ⟨j, hj, hjk⟩
  have hjl : j ∈ l := by
    have h1 := List.take_subset _ _ hj
    by_cases hcond : l.indexOf absIdx < l.length - 1
    · rw [if_pos hcond] at h1
      rcases List.mem_or_eq_of_mem_set h1 with hm | he
      · exact hm
      · subst he
        have hlt : l.length - 1 < l.length := by omega
        rw [List.getD_eq_getElem?_getD, List.getElem?_eq_getElem hlt]
        exact List.getElem_mem hlt
    · rw [if_neg hcond] at h1
      exact h1
  have holdex := h ⟨j, hjl, hrefl j hjk⟩
  have hd_ne : l.getD 0 0 ≠ absIdx := fun he => hnk (he ▸ holdex.1)
  have hidx_ne0 : l.indexOf absIdx ≠ 0 := by
    intro h0
    apply hd_ne
    have hg : l.get ⟨l.indexOf absIdx, hfound⟩ = absIdx := List.indexOf_get hfound
    simp only [h0] at hg
    rw [List.getD_eq_getElem?_getD,
      List.getElem?_eq_getElem (show 0 < l.length by omega)]
    simpa using hg
  have hlen2 : 2 ≤ l.length := by
    have := hfound
    omega
  have hhd' :
      ((if l.indexOf absIdx < l.length - 1 then
          l.set (l.indexOf absIdx) (l.getD (l.length - 1) 0)
        else l).take (l.length - 1)).getD 0 0 = l.getD 0 0 := by
    rw [List.getD_eq_getElem?_getD, List.getElem?_take, if_pos (by omega : 0 < l.length - 1)]
    by_cases hcond : l.indexOf absIdx < l.length - 1
    · rw [if_pos hcond, List.getElem?_set_ne hidx_ne0, ← List.getD_eq_getElem?_getD]
    · rw [if_neg hcond, ← List.getD_eq_getElem?_getD]
  rw [hhd']
  have hd_cond : ¬(l.getD 0 0 = absIdx ∧ l.getD 0 0 < pieces.length) :=
    fun hc => hd_ne hc.1
  constructor
  · rw [getD_set, if_neg hd_cond]
    exact holdex.1
  · rw [getD_set, if_neg hd_cond]
    exact holdex.2

theorem setPcount_plist (b : Board) (c0 n c : Nat) :
    (b.setPcount c0 n).plist c = b.plist c := by
  unfold Board.setPcount Board.plist
  split <;> split <;> rfl

theorem setPlist_plist_same (b : Board) (c0 c : Nat) (l : List Nat)
    (hcc : (c = WHITE) ↔ (c0 = WHITE)) : (b.setPlist c0 l).plist c = l := by
  unfold Board.setPlist Board.plist
  by_cases h : c = WHITE
  · rw [if_pos h, if_pos (hcc.mp h)]
  · rw [if_neg h, if_neg (fun hc => h (hcc.mpr hc))]

theorem setPlist_plist_diff (b : Board) (c0 c : Nat) (l : List Nat)
    (hcc : ¬((c = WHITE) ↔ (c0 = WHITE))) :
    (b.setPlist c0 l).plist c = b.plist c := by
  unfold Board.setPlist Board.plist
  by_cases h : c = WHITE
  · have h0 : ¬(c0 = WHITE) := fun hc => hcc ⟨fun _ => hc, fun _ => h⟩
    rw [if_pos h, if_pos h, if_neg h0]
  · have h0 : c0 = WHITE := by
      by_contra h0
      exact hcc ⟨fun hc => absurd hc h, fun hc => absurd hc h0⟩
    rw [if_neg h, if_neg h, if_pos h0]

theorem plist_same_eq (b : Board) (c0 c : Nat) (hcc : (c = WHITE) ↔ (c0 = WHITE)) :
    b.plist c = b.plist c0 := by
  unfold Board.plist
  by_cases h : c = WHITE
  · rw [if_pos h, if_pos (hcc.mp h)]
  · rw [if_neg h, if_neg (fun hc => h (hcc.mpr hc))]

theorem wf_plist_length (b : Board) (c : Nat) (hwf : b.wf) :
    (b.plist c).length = b.pcount c := by
  unfold Board.plist Board.pcount
  split
  · exact hwf.1
  · exact hwf.2

theorem plist_update_pieces (b : Board) (y : List Piece) (c : Nat) :
    ({ b with pieces := y }).plist c = b.plist c := by
  unfold Board.plist
  split <;> rfl

theorem setPlist_setPcount_wf (b : Board) (c0 : Nat) (l : List Nat) (n : Nat)
    (hlen : l.length = n) (hwf : b.wf) : ((b.setPlist c0 l).setPcount c0 n).wf := by
  unfold Board.setPlist Board.setPcount Board.wf
  by_cases h : c0 = WHITE <;> simp [h, hlen, hwf.1, hwf.2]

/-- `removePiece` preserves the king-at-head invariant of every color and
the length bookkeeping, provided the removed piece is not a king. -/
theorem removePiece_invariants (b : Board) (absIdx : Nat) (c : Nat)
    (hwf : b.wf)
    (hnk : (b.pieces.getD absIdx emptyPiece).type ≠ KING)
    (hk : b.kingAtHead c) :
    (b.removePiece absIdx).kingAtHead c ∧ (b.removePiece absIdx).wf := by
  have hdead :
      ({ b.pieces.getD absIdx emptyPiece with square := -1, type := EMPTY } : Piece).type ≠
        KING := by
    simp [EMPTY, KING]
  simp only [Board.removePiece]
  set p := b.pieces.getD absIdx emptyPiece with hp
  set c0 := p.color with hc0
  set l := b.plist c0 with hl
  set n1 := b.pcount c0 - 1 with hn1
  set B1 := if l.indexOf absIdx < l.length then
      (b.setPlist c0 (removeFromList l absIdx n1)).setPcount c0 n1
    else b with hB1
  set B2 := if 0 ≤ p.square then B1.setBoardAt p.square (-1) else B1 with hB2
  have hB1p : B1.pieces = b.pieces := by
    rw [hB1]; split
    · rw [setPcount_pieces, setPlist_pieces]
    · rfl
  have hB2p : B2.pieces = b.pieces := by
    rw [hB2]; split
    · rw [setBoardAt_pieces, hB1p]
    · exact hB1p
  have hB2pl : B2.plist c = B1.plist c := by
    rw [hB2]; split
    · rw [setBoardAt_plist]
    · rfl
  have hcnt : l.length = b.pcount c0 := by
    rw [hl]; exact wf_plist_length b c0 hwf
  have hkb1 : KingHeadInv (b.pieces.set absIdx { p with square := -1, type := EMPTY })
      (B1.plist c) c := by
    rw [hB1]; split
    · next hfound =>
      by_cases hsame : (c = WHITE) ↔ (c0 = WHITE)
      · rw [setPcount_plist, setPlist_plist_same _ _ _ _ hsame]
        have hkc : KingHeadInv b.pieces l c := by
          have hx : KingHeadInv b.pieces (b.plist c) c := hk
          rwa [plist_same_eq b c0 c hsame, ← hl] at hx
        have hres := kingHeadInv_remove_list b.pieces l c absIdx _ hdead hfound hnk hkc
        unfold removeFromList
        rw [hn1, ← hcnt]
        exact hres
      · rw [setPcount_plist, setPlist_plist_diff _ _ _ _ hsame]
        exact kingHeadInv_set_nonking _ _ _ _ _ hdead hnk hk
    · exact kingHeadInv_set_nonking _ _ _ _ _ hdead hnk hk
  constructor
  · show KingHeadInv _ _ c
    rw [plist_update_pieces, hB2p, hB2pl]
    exact hkb1
  · show B2.wf
    rw [hB2]
    have hwfB1 : B1.wf := by
      rw [hB1]; split
      · apply setPlist_setPcount_wf _ _ _ _ _ hwf
        unfold removeFromList
        rw [List.length_take]
        split <;> (rw [hn1] <;> try rw [List.length_set]) <;> omega
      · exact hwf
    split
    · exact (setBoardAt_wf _ _ _).mpr hwfB1
    · exact hwfB1

/-- `removePiece` never creates a king: a slot holding a king afterwards
held one before. -/
theorem removePiece_type_noking (b : Board) (a k : Nat)
    (h : ((b.removePiece a).pieces.getD k emptyPiece).type = KING) :
    (b.pieces.getD k emptyPiece).type = KING := by
  simp only [Board.removePiece] at h
  set p := b.pieces.getD a emptyPiece with hp
  set c0 := p.color with hc0
  set l := b.plist c0 with hl
  set n1 := b.pcount c0 - 1 with hn1
  set B1 := if l.indexOf a < l.length then
      (b.setPlist c0 (removeFromList l a n1)).setPcount c0 n1
    else b with hB1
  set B2 := if 0 ≤ p.square then B1.setBoardAt p.square (-1) else B1 with hB2
  have hB1p : B1.pieces = b.pieces := by
    rw [hB1]; split
    · rw [setPcount_pieces, setPlist_pieces]
    · rfl
  have hB2p : B2.pieces = b.pieces := by
    rw [hB2]; split
    · rw [setBoardAt_pieces, hB1p]
    · exact hB1p
  rw [hB2p, getD_set] at h
  split at h
  · exact absurd h (by simp [EMPTY, KING])
  · exact h


theorem pieces_update_pieces (b : Board) (y : List Piece) :
    ({ b with pieces := y } : Board).pieces = y := rfl

theorem boardAt_neg_one (b : Board) : b.boardAt (-1) = -1 := by
  unfold Board.boardAt
  rw [if_neg (by norm_num)]

/-- The capture block preserves both invariants and never creates a king,
provided no captured piece is a king. -/
theorem doCapture_invariants (b1 : Board) (capturedIdx epCaptureSq : Int) (c : Nat)
    (hwf : b1.wf) (hk : b1.kingAtHead c)
    (hcap : 0 ≤ capturedIdx → (b1.pieces.getD capturedIdx.toNat emptyPiece).type ≠ KING)
    (hep : 0 ≤ b1.boardAt epCaptureSq →
      (b1.pieces.getD (b1.boardAt epCaptureSq).toNat emptyPiece).type ≠ KING) :
    ((b1.doCapture capturedIdx epCaptureSq).kingAtHead c ∧
     (b1.doCapture capturedIdx epCaptureSq).wf) ∧
    ∀ k, ((b1.doCapture capturedIdx epCaptureSq).pieces.getD k emptyPiece).type = KING →
      (b1.pieces.getD k emptyPiece).type = KING := by
  unfold Board.doCapture
  split
  · next hge =>
    exact ⟨removePiece_invariants b1 _ c hwf (hcap hge) hk,
      fun k hkk => removePiece_type_noking b1 _ k hkk⟩
  · split
    · split
      · next hidx =>
        have hrm := removePiece_invariants b1 (b1.boardAt epCaptureSq).toNat c hwf (hep hidx) hk
        exact ⟨⟨(setBoardAt_kingAtHead _ _ _ _).mpr hrm.1, (setBoardAt_wf _ _ _).mpr hrm.2⟩,
          fun k hkk => removePiece_type_noking b1 _ k (by rwa [setBoardAt_pieces] at hkk)⟩
      · exact ⟨⟨hk, hwf⟩, fun k hkk => hkk⟩
    · exact ⟨⟨hk, hwf⟩, fun k hkk => hkk⟩

/-- The piece-relocation block preserves both invariants and the type of
every slot. -/
theorem movePieceTo_invariants (b2 : Board) (src dst movingIdx : Int) (c : Nat)
    (hwf : b2.wf) (hk : b2.kingAtHead c) :
    ((b2.movePieceTo src dst movingIdx).kingAtHead c ∧
     (b2.movePieceTo src dst movingIdx).wf) ∧
    ∀ k, ((b2.movePieceTo src dst movingIdx).pieces.getD k emptyPiece).type = KING →
      (b2.pieces.getD k emptyPiece).type = KING := by
  simp only [Board.movePieceTo]
  set B3 := (b2.setBoardAt src (-1)).setBoardAt dst movingIdx with hB3
  have hB3p : B3.pieces = b2.pieces := by rw [hB3, setBoardAt_pieces, setBoardAt_pieces]
  have hB3pl : B3.plist c = b2.plist c := by rw [hB3, setBoardAt_plist, setBoardAt_plist]
  have hB3wf : B3.wf := by
    rw [hB3]
    exact (setBoardAt_wf _ _ _).mpr ((setBoardAt_wf _ _ _).mpr hwf)
  refine ⟨⟨?_, ?_⟩, ?_⟩
  · show KingHeadInv _ _ c
    rw [pieces_update_pieces, plist_update_pieces, hB3pl, hB3p]
    exact kingHeadInv_set_type_eq b2.pieces (b2.plist c) c _ _ rfl rfl hk
  · exact hB3wf
  · intro k hkk
    rw [pieces_update_pieces, hB3p, getD_set] at hkk
    split at hkk
    · next hcase =>
      rw [hcase.1]
      exact hkk
    · exact hkk

/-- The promotion block preserves both invariants, provided the promotion
is not to a king and the promoted slot does not hold a king. -/
theorem doPromo_invariants (b4 : Board) (mIdx : Nat) (promo : Option Nat) (c : Nat)
    (hwf : b4.wf) (hk : b4.kingAtHead c)
    (hq : ∀ q, promo = some q → q ≠ KING ∧ (b4.pieces.getD mIdx emptyPiece).type ≠ KING) :
    (b4.doPromo mIdx promo).kingAtHead c ∧ (b4.doPromo mIdx promo).wf := by
  unfold Board.doPromo
  cases promo with
  | none => exact ⟨hk, hwf⟩
  | some q =>
    obtain ⟨hqk, hmk⟩ := hq q rfl
    constructor
    · show KingHeadInv _ _ c
      rw [pieces_update_pieces, plist_update_pieces]
      exact kingHeadInv_set_nonking b4.pieces (b4.plist c) c mIdx _ (by simpa using hqk) hmk hk
    · exact hwf

/-- One taken castling branch: relocating the rook (a square-only change)
preserves both invariants. -/
theorem castle_branch_inv (b5 : Board) (rookFrom rookTo : Int) (c : Nat)
    (hwf : b5.wf) (hk : b5.kingAtHead c) :
    (let b5a := (b5.setBoardAt rookFrom (-1)).setBoardAt rookTo (b5.boardAt rookFrom)
     ({ b5a with pieces := b5a.pieces.set (b5.boardAt rookFrom).toNat { b5.pieces.getD (b5.boardAt rookFrom).toNat emptyPiece with square := rookTo } } : Board)).kingAtHead c ∧
    (let b5a := (b5.setBoardAt rookFrom (-1)).setBoardAt rookTo (b5.boardAt rookFrom)
     ({ b5a with pieces := b5a.pieces.set (b5.boardAt rookFrom).toNat { b5.pieces.getD (b5.boardAt rookFrom).toNat emptyPiece with square := rookTo } } : Board)).wf := by
  set B5a := (b5.setBoardAt rookFrom (-1)).setBoardAt rookTo (b5.boardAt rookFrom) with hB5a
  have hp : B5a.pieces = b5.pieces := by rw [hB5a, setBoardAt_pieces, setBoardAt_pieces]
  have hpl : B5a.plist c = b5.plist c := by rw [hB5a, setBoardAt_plist, setBoardAt_plist]
  have hwfa : B5a.wf := by
    rw [hB5a]
    exact (setBoardAt_wf _ _ _).mpr ((setBoardAt_wf _ _ _).mpr hwf)
  constructor
  · show KingHeadInv (B5a.pieces.set (b5.boardAt rookFrom).toNat { b5.pieces.getD (b5.boardAt rookFrom).toNat emptyPiece with square := rookTo }) (B5a.plist c) c
    rw [hp, hpl]
    exact kingHeadInv_set_type_eq b5.pieces (b5.plist c) c _ _ rfl rfl hk
  · show B5a.wf
    exact hwfa

/-- The castling block preserves both invariants (the rook relocation only
changes a square). -/
theorem doCastle_invariants (b5 : Board) (src dst : Int) (c : Nat)
    (hwf : b5.wf) (hk : b5.kingAtHead c) :
    (b5.doCastle src dst).kingAtHead c ∧ (b5.doCastle src dst).wf := by
  simp only [Board.doCastle]
  split <;> split
  · exact castle_branch_inv b5 _ _ c hwf hk
  · exact ⟨hk, hwf⟩
  · exact castle_branch_inv b5 _ _ c hwf hk
  · exact ⟨hk, hwf⟩

/-- `applyMove` preserves the king-at-head invariant of every color and
the length bookkeeping, provided neither a directly captured piece nor an
en-passant-captured piece is a king, and a promotion (if any) neither
promotes to a king nor moves a king. -/
theorem applyMove_kingAtHead (b : Board) (src dst : Int) (promo : Option Nat)
    (ic inl : Bool) (c : Nat)
    (hwf : b.wf) (hk : b.kingAtHead c)
    (hcap : 0 ≤ b.boardAt dst →
      (b.pieces.getD (b.boardAt dst).toNat emptyPiece).type ≠ KING)
    (hep : 0 ≤ b.boardAt (if b.sideToMove = WHITE then dst - 8 else dst + 8) →
      (b.pieces.getD
        (b.boardAt (if b.sideToMove = WHITE then dst - 8 else dst + 8)).toNat
        emptyPiece).type ≠ KING)
    (hpromo : promo = none ∨ ∃ q, promo = some q ∧ q ≠ KING ∧
      (0 ≤ b.boardAt src →
        (b.pieces.getD (b.boardAt src).toNat emptyPiece).type ≠ KING)) :
    (b.applyMove src dst promo ic inl).kingAtHead c ∧
    (b.applyMove src dst promo ic inl).wf := by
  have main : ∀ (B1 : Board) (CAP EPS : Int),
      B1.wf → B1.kingAtHead c →
      (0 ≤ CAP → (B1.pieces.getD CAP.toNat emptyPiece).type ≠ KING) →
      (0 ≤ B1.boardAt EPS →
        (B1.pieces.getD (B1.boardAt EPS).toNat emptyPiece).type ≠ KING) →
      (∀ q, promo = some q → q ≠ KING ∧
        (B1.pieces.getD (b.boardAt src).toNat emptyPiece).type ≠ KING) →
      ((if ic then
          (((B1.doCapture CAP EPS).movePieceTo src dst (b.boardAt src)).doPromo
            (b.boardAt src).toNat promo).doCastle src dst
        else
          ((B1.doCapture CAP EPS).movePieceTo src dst (b.boardAt src)).doPromo
            (b.boardAt src).toNat promo) : Board).kingAtHead c ∧
      ((if ic then
          (((B1.doCapture CAP EPS).movePieceTo src dst (b.boardAt src)).doPromo
            (b.boardAt src).toNat promo).doCastle src dst
        else
          ((B1.doCapture CAP EPS).movePieceTo src dst (b.boardAt src)).doPromo
            (b.boardAt src).toNat promo) : Board).wf := by
    intro B1 CAP EPS hwf1 hk1 hcap1 hep1 hq1
    have h2 := doCapture_invariants B1 CAP EPS c hwf1 hk1 hcap1 hep1
    have h4 := movePieceTo_invariants (B1.doCapture CAP EPS) src dst (b.boardAt src) c
      h2.1.2 h2.1.1
    have h5 := doPromo_invariants _ (b.boardAt src).toNat promo c h4.1.2 h4.1.1
      (fun q hqe =>
        ⟨(hq1 q hqe).1, fun hcontra => (hq1 q hqe).2 (h2.2 _ (h4.2 _ hcontra))⟩)
    split
    · exact doCastle_invariants _ src dst c h5.2 h5.1
    · exact h5
  simp only [Board.applyMove]
  split
  · exact ⟨hk, hwf⟩
  · split
    · exact ⟨hk, hwf⟩
    · next hmv =>
      have hsrc : 0 ≤ b.boardAt src := Int.not_lt.mp hmv
      exact main _ _ _ hwf hk hcap
        (by
          by_cases hpc : (b.pieces.getD (b.boardAt src).toNat emptyPiece).type = PAWN ∧
              dst = b.epSquare
          · rw [if_pos hpc]
            exact hep
          · rw [if_neg hpc]
            intro hx
            rw [boardAt_neg_one] at hx
            exact absurd hx (by norm_num))
        (fun q hqe => by
          rcases hpromo with hnone | ⟨q', hsome, hqk, hmvk⟩
          · rw [hnone] at hqe
            cases hqe
          · rw [hsome] at hqe
            injection hqe with hqq
            subst hqq
            exact ⟨hqk, hmvk hsrc⟩)

/-- A list whose head slot holds a king of the right color satisfies the
invariant outright. -/
theorem kingHeadInv_king_at_head (pieces : List Piece) (l : List Nat) (c absIdx : Nat)
    (hhead : l.getD 0 0 = absIdx)
    (htype : (pieces.getD absIdx emptyPiece).type = KING)
    (hcolor : (pieces.getD absIdx emptyPiece).color = c) :
    KingHeadInv pieces l c := fun _ => by rw [hhead]; exact ⟨htype, hcolor⟩

/-- Out-of-range `getD` yields the default piece. -/
theorem getD_out_of_range (pieces : List Piece) (k : Nat) (hk : pieces.length ≤ k) :
    pieces.getD k emptyPiece = emptyPiece := by
  rw [List.getD_eq_getElem?_getD, List.getElem?_eq_none hk]
  rfl

/-- Setting a slot not referenced by the list preserves the invariant. -/
theorem kingHeadInv_set_fresh (pieces : List Piece) (l : List Nat) (c absIdx : Nat)
    (pNew : Piece)
    (hfresh : ∀ i ∈ l, i ≠ absIdx)
    (h : KingHeadInv pieces l c) : KingHeadInv (pieces.set absIdx pNew) l c := by
  rintro ⟨j, hj, hjk⟩
  have hjne := hfresh j hj
  have hjk' : (pieces.getD j emptyPiece).type = KING := by
    rw [getD_set, if_neg (fun hc => hjne hc.1)] at hjk
    exact hjk
  have holdex := h ⟨j, hj, hjk'⟩
  have hlnil : l ≠ [] := fun h0 => by rw [h0] at hj; cases hj
  have hhead_mem : l.getD 0 0 ∈ l := by
    have hpos : 0 < l.length := List.length_pos.mpr hlnil
    rw [List.getD_eq_getElem?_getD, List.getElem?_eq_getElem hpos]
    exact List.getElem_mem hpos
  have hhne := hfresh _ hhead_mem
  constructor
  · rw [getD_set, if_neg (fun hc => hhne hc.1)]
    exact holdex.1
  · rw [getD_set, if_neg (fun hc => hhne hc.1)]
    exact holdex.2

/-- Appending a fresh non-king slot at the tail preserves the invariant. -/
theorem kingHeadInv_append_nonking (pieces : List Piece) (l : List Nat) (c absIdx : Nat)
    (pNew : Piece)
    (hnew : pNew.type ≠ KING)
    (hfresh : ∀ i ∈ l, i ≠ absIdx)
    (h : KingHeadInv pieces l c) :
    KingHeadInv (pieces.set absIdx pNew) (l ++ [absIdx]) c := by
  rintro ⟨j, hj, hjk⟩
  rcases List.mem_append.mp hj with hjl | hja
  · have hjne := hfresh j hjl
    have hjk' : (pieces.getD j emptyPiece).type = KING := by
      rw [getD_set, if_neg (fun hc => hjne hc.1)] at hjk
      exact hjk
    have holdex := h ⟨j, hjl, hjk'⟩
    have hlnil : l ≠ [] := fun h0 => by rw [h0] at hjl; cases hjl
    have hpos : 0 < l.length := List.length_pos.mpr hlnil
    have hhead_app : (l ++ [absIdx]).getD 0 0 = l.getD 0 0 := by
      rw [List.getD_eq_getElem?_getD, List.getD_eq_getElem?_getD,
        List.getElem?_append, if_pos hpos]
    have hhead_mem : l.getD 0 0 ∈ l := by
      rw [List.getD_eq_getElem?_getD, List.getElem?_eq_getElem hpos]
      exact List.getElem_mem hpos
    have hhne := hfresh _ hhead_mem
    rw [hhead_app]
    constructor
    · rw [getD_set, if_neg (fun hc => hhne hc.1)]
      exact holdex.1
    · rw [getD_set, if_neg (fun hc => hhne hc.1)]
      exact holdex.2
  · exfalso
    have hje : j = absIdx := by simpa using hja
    subst hje
    rw [getD_set] at hjk
    split at hjk
    · exact hnew hjk
    · next hcond =>
      have hge : pieces.length ≤ j := by
        by_contra hc
        exact hcond ⟨rfl, Nat.lt_of_not_le hc⟩
      rw [getD_out_of_range pieces j hge] at hjk
      exact absurd hjk (by simp [emptyPiece, EMPTY, KING])

theorem plist_white (b : Board) : b.plist WHITE = b.listW := rfl

theorem plist_black (b : Board) : b.plist BLACK = b.listB := rfl

theorem pcount_white (b : Board) : b.pcount WHITE = b.countW := rfl

theorem pcount_black (b : Board) : b.pcount BLACK = b.countB := rfl

/-- Slot-range bookkeeping of one piece list: the length matches the
count and every referenced slot lies in the color's 16-slot block. -/
def ListOk (b : Board) (c : Nat) : Prop :=
  (b.plist c).length = b.pcount c ∧
  ∀ i ∈ b.plist c, c * 16 ≤ i ∧ i < c * 16 + b.pcount c

/-- The bundle of invariants maintained by the `addPiece` fold of
`setupFromFEN`. -/
def SetupInv (b : Board) : Prop :=
  b.pieces.length = 32 ∧ ListOk b WHITE ∧ ListOk b BLACK ∧
  b.kingAtHead WHITE ∧ b.kingAtHead BLACK

theorem addPiece_white_fields (b : Board) (t : Nat) (sq : Int) :
    (b.addPiece t WHITE sq).pieces = b.pieces.set b.countW ⟨t, WHITE, sq⟩ ∧
    (b.addPiece t WHITE sq).listW =
      (if t = KING then
        (if b.countW > 0 then (b.listW.set 0 b.countW).take b.countW ++ [b.listW.getD 0 0]
         else [b.countW])
       else b.listW.take b.countW ++ [b.countW]) ∧
    (b.addPiece t WHITE sq).listB = b.listB ∧
    (b.addPiece t WHITE sq).countW = b.countW + 1 ∧
    (b.addPiece t WHITE sq).countB = b.countB := by
  by_cases hsq : (0:Int) ≤ sq ∧ sq < 64 <;>
    simp [Board.addPiece, Board.setPlist, Board.setPcount, Board.setBoardAt,
      Board.plist, Board.pcount, WHITE, hsq]

theorem addPiece_black_fields (b : Board) (t : Nat) (sq : Int) :
    (b.addPiece t BLACK sq).pieces = b.pieces.set (16 + b.countB) ⟨t, BLACK, sq⟩ ∧
    (b.addPiece t BLACK sq).listB =
      (if t = KING then
        (if b.countB > 0 then
          (b.listB.set 0 (16 + b.countB)).take b.countB ++ [b.listB.getD 0 0]
         else [16 + b.countB])
       else b.listB.take b.countB ++ [16 + b.countB]) ∧
    (b.addPiece t BLACK sq).listW = b.listW ∧
    (b.addPiece t BLACK sq).countB = b.countB + 1 ∧
    (b.addPiece t BLACK sq).countW = b.countW := by
  by_cases hsq : (0:Int) ≤ sq ∧ sq < 64 <;>
    simp [Board.addPiece, Board.setPlist, Board.setPcount, Board.setBoardAt,
      Board.plist, Board.pcount, WHITE, BLACK, hsq]

/-- Adding a white piece with fewer than 16 white pieces present keeps
all setup invariants. -/
theorem addPiece_white_inv (b : Board) (t : Nat) (sq : Int)
    (hlt : b.countW < 16) (hinv : SetupInv b) :
    SetupInv (b.addPiece t WHITE sq) := by
  obtain ⟨hplen, hlokW, hlokB, hkW, hkB⟩ := hinv
  obtain ⟨hP, hLW, hLB, hCW, hCB⟩ := addPiece_white_fields b t sq
  have hlenW : b.listW.length = b.countW := by
    have h1 := hlokW.1
    rwa [plist_white, pcount_white] at h1
  have hrangeW : ∀ i ∈ b.listW, i < b.countW := by
    intro i hi
    have h1 := (hlokW.2 i (by rwa [plist_white])).2
    simpa [WHITE, pcount_white] using h1
  have hrangeB : ∀ i ∈ b.listB, 16 ≤ i ∧ i < 16 + b.countB := by
    intro i hi
    have h1 := hlokB.2 i (by rwa [plist_black])
    simpa [BLACK, pcount_black] using h1
  have htake1 : b.listW.take b.countW = b.listW :=
    List.take_of_length_le (Nat.le_of_eq hlenW)
  have htake2 : (b.listW.set 0 b.countW).take b.countW = b.listW.set 0 b.countW :=
    List.take_of_length_le (by rw [List.length_set, hlenW])
  have hfreshW : ∀ i ∈ b.listW, i ≠ b.countW := fun i hi => Nat.ne_of_lt (hrangeW i hi)
  have hfreshB : ∀ i ∈ b.listB, i ≠ b.countW := fun i hi =>
    Nat.ne_of_gt (Nat.lt_of_lt_of_le hlt (hrangeB i hi).1)
  have hcWlt : b.countW < b.pieces.length := by omega
  refine ⟨?_, ?_, ?_, ?_, ?_⟩
  · rw [hP, List.length_set]
    exact hplen
  · constructor
    · rw [plist_white, pcount_white, hLW, hCW]
      split
      · split
        · rw [htake2, List.length_append, List.length_set, hlenW]
          rfl
        · next hc0 =>
          have : b.countW = 0 := by omega
          simp [this]
      · rw [htake1, List.length_append, hlenW]
        rfl
    · rw [plist_white, pcount_white, hLW, hCW]
      intro i hi
      refine ⟨by simp [WHITE], ?_⟩
      have hup : i < b.countW + 1 := by
        split at hi
        · split at hi
          · rw [htake2] at hi
            rcases List.mem_append.mp hi with hm | hm
            · rcases List.mem_or_eq_of_mem_set hm with hm2 | hm2
              · exact Nat.lt_succ_of_lt (hrangeW i hm2)
              · omega
            · have hm2 : i = b.listW.getD 0 0 := by simpa using hm
              next hc0 =>
                have hpos : 0 < b.listW.length := by omega
                have : b.listW.getD 0 0 ∈ b.listW := by
                  rw [List.getD_eq_getElem?_getD, List.getElem?_eq_getElem hpos]
                  exact List.getElem_mem hpos
                rw [hm2]
                exact Nat.lt_succ_of_lt (hrangeW _ this)
          · have : i = b.countW := by simpa using hi
            omega
        · rw [htake1] at hi
          rcases List.mem_append.mp hi with hm | hm
          · exact Nat.lt_succ_of_lt (hrangeW i hm)
          · have : i = b.countW := by simpa using hm
            omega
      simpa [WHITE] using hup
  · constructor
    · rw [plist_black, pcount_black, hLB, hCB]
      have h1 := hlokB.1
      rwa [plist_black, pcount_black] at h1
    · rw [plist_black, pcount_black, hLB, hCB]
      intro i hi
      have := hrangeB i hi
      simp [BLACK]
      omega
  · show KingHeadInv (b.addPiece t WHITE sq).pieces ((b.addPiece t WHITE sq).listW) WHITE
    rw [hP, hLW]
    split
    · next ht =>
      have htype : ((b.pieces.set b.countW ⟨t, WHITE, sq⟩).getD b.countW emptyPiece).type =
          KING := by
        rw [getD_set, if_pos ⟨rfl, hcWlt⟩, ht]
      have hcolor : ((b.pieces.set b.countW ⟨t, WHITE, sq⟩).getD b.countW emptyPiece).color =
          WHITE := by
        rw [getD_set, if_pos ⟨rfl, hcWlt⟩]
      split
      · next hc0 =>
        apply kingHeadInv_king_at_head _ _ _ b.countW _ htype hcolor
        rw [htake2]
        have hpos : 0 < (b.listW.set 0 b.countW).length := by
          rw [List.length_set]
          omega
        rw [List.getD_eq_getElem?_getD, List.getElem?_append, if_pos hpos,
          List.getElem?_set_self (by omega : 0 < b.listW.length)]
        rfl
      · exact kingHeadInv_king_at_head _ _ _ b.countW rfl htype hcolor
    · next ht =>
      rw [htake1]
      exact kingHeadInv_append_nonking b.pieces b.listW WHITE b.countW _
        (by simpa using ht) hfreshW hkW
  · show KingHeadInv (b.addPiece t WHITE sq).pieces ((b.addPiece t WHITE sq).listB) BLACK
    rw [hP, hLB]
    exact kingHeadInv_set_fresh b.pieces b.listB BLACK b.countW _ hfreshB hkB

/-- Adding a black piece with fewer than 16 black pieces (and at most 16
white pieces) present keeps all setup invariants. -/
theorem addPiece_black_inv (b : Board) (t : Nat) (sq : Int)
    (hlt : b.countB < 16) (hwle : b.countW ≤ 16) (hinv : SetupInv b) :
    SetupInv (b.addPiece t BLACK sq) := by
  obtain ⟨hplen, hlokW, hlokB, hkW, hkB⟩ := hinv
  obtain ⟨hP, hLB, hLW, hCB, hCW⟩ := addPiece_black_fields b t sq
  have hlenB : b.listB.length = b.countB := by
    have h1 := hlokB.1
    rwa [plist_black, pcount_black] at h1
  have hrangeB : ∀ i ∈ b.listB, 16 ≤ i ∧ i < 16 + b.countB := by
    intro i hi
    have h1 := hlokB.2 i (by rwa [plist_black])
    simpa [BLACK, pcount_black] using h1
  have hrangeW : ∀ i ∈ b.listW, i < b.countW := by
    intro i hi
    have h1 := (hlokW.2 i (by rwa [plist_white])).2
    simpa [WHITE, pcount_white] using h1
  have htake1 : b.listB.take b.countB = b.listB :=
    List.take_of_length_le (Nat.le_of_eq hlenB)
  have htake2 : (b.listB.set 0 (16 + b.countB)).take b.countB =
      b.listB.set 0 (16 + b.countB) :=
    List.take_of_length_le (by rw [List.length_set, hlenB])
  have hfreshB : ∀ i ∈ b.listB, i ≠ 16 + b.countB :=
    fun i hi => Nat.ne_of_lt (hrangeB i hi).2
  have hfreshW : ∀ i ∈ b.listW, i ≠ 16 + b.countB := fun i hi =>
    Nat.ne_of_lt (by have := hrangeW i hi; omega)
  have hcBlt : 16 + b.countB < b.pieces.length := by omega
  refine ⟨?_, ?_, ?_, ?_, ?_⟩
  · rw [hP, List.length_set]
    exact hplen
  · constructor
    · rw [plist_white, pcount_white, hLW, hCW]
      have h1 := hlokW.1
      rwa [plist_white, pcount_white] at h1
    · rw [plist_white, pcount_white, hLW, hCW]
      intro i hi
      have h1 := hlokW.2 i (by rwa [plist_white])
      rwa [pcount_white] at h1
  · constructor
    · rw [plist_black, pcount_black, hLB, hCB]
      split
      · split
        · rw [htake2, List.length_append, List.length_set, hlenB]
          rfl
        · next hc0 =>
          have : b.countB = 0 := by omega
          simp [this]
      · rw [htake1, List.length_append, hlenB]
        rfl
    · rw [plist_black, pcount_black, hLB, hCB]
      intro i hi
      have hup : 16 ≤ i ∧ i < 16 + (b.countB + 1) := by
        split at hi
        · split at hi
          · rw [htake2] at hi
            rcases List.mem_append.mp hi with hm | hm
            · rcases List.mem_or_eq_of_mem_set hm with hm2 | hm2
              · have := hrangeB i hm2
                omega
              · omega
            · have hm2 : i = b.listB.getD 0 0 := by simpa using hm
              next hc0 =>
                have hpos : 0 < b.listB.length := by omega
                have hmem : b.listB.getD 0 0 ∈ b.listB := by
                  rw [List.getD_eq_getElem?_getD, List.getElem?_eq_getElem hpos]
                  exact List.getElem_mem hpos
                have := hrangeB _ hmem
                omega
          · have : i = 16 + b.countB := by simpa using hi
            omega
        · rw [htake1] at hi
          rcases List.mem_append.mp hi with hm | hm
          · have := hrangeB i hm
            omega
          · have : i = 16 + b.countB := by simpa using hm
            omega
      simpa [BLACK] using hup
  · show KingHeadInv (b.addPiece t BLACK sq).pieces ((b.addPiece t BLACK sq).listW) WHITE
    rw [hP, hLW]
    exact kingHeadInv_set_fresh b.pieces b.listW WHITE (16 + b.countB) _ hfreshW hkW
  · show KingHeadInv (b.addPiece t BLACK sq).pieces ((b.addPiece t BLACK sq).listB) BLACK
    rw [hP, hLB]
    split
    · next ht =>
      have htype : ((b.pieces.set (16 + b.countB) ⟨t, BLACK, sq⟩).getD (16 + b.countB)
          emptyPiece).type = KING := by
        rw [getD_set, if_pos ⟨rfl, hcBlt⟩, ht]
      have hcolor : ((b.pieces.set (16 + b.countB) ⟨t, BLACK, sq⟩).getD (16 + b.countB)
          emptyPiece).color = BLACK := by
        rw [getD_set, if_pos ⟨rfl, hcBlt⟩]
      split
      · next hc0 =>
        apply kingHeadInv_king_at_head _ _ _ (16 + b.countB) _ htype hcolor
        rw [htake2]
        have hpos : 0 < (b.listB.set 0 (16 + b.countB)).length := by
          rw [List.length_set]
          omega
        rw [List.getD_eq_getElem?_getD, List.getElem?_append, if_pos hpos,
          List.getElem?_set_self (by omega : 0 < b.listB.length)]
        rfl
      · exact kingHeadInv_king_at_head _ _ _ (16 + b.countB) rfl htype hcolor
    · next ht =>
      rw [htake1]
      exact kingHeadInv_append_nonking b.pieces b.listB BLACK (16 + b.countB) _
        (by simpa using ht) hfreshB hkB

instance (b : Board) (c : Nat) : Decidable (b.kingAtHead c) := by
  unfold Board.kingAtHead; infer_instance

/-- How many of the scanned FEN pieces have the given color. -/
def countColor (ps : List (Nat × Nat × Int)) (c : Nat) : Nat :=
  (ps.filter (fun p => p.2.1 == c)).length

theorem foldl_addPiece_inv : ∀ (ps : List (Nat × Nat × Int)) (b : Board),
    SetupInv b →
    (∀ p ∈ ps, p.2.1 = WHITE ∨ p.2.1 = BLACK) →
    b.countW + countColor ps WHITE ≤ 16 →
    b.countB + countColor ps BLACK ≤ 16 →
    SetupInv (ps.foldl (fun bx p => bx.addPiece p.1 p.2.1 p.2.2) b)
  | [], _, hinv, _, _, _ => hinv
  | (t, c, sq) :: ps, b, hinv, hcolors, hW, hB => by
    have hcc := hcolors (t, c, sq) (List.mem_cons_self _ _)
    simp only [List.foldl_cons]
    rcases hcc with hc | hc
    · subst hc
      have hcw : countColor ((t, WHITE, sq) :: ps) WHITE = countColor ps WHITE + 1 := by
        simp [countColor]
      have hcb : countColor ((t, WHITE, sq) :: ps) BLACK = countColor ps BLACK := by
        simp [countColor, WHITE, BLACK]
      rw [hcw] at hW
      rw [hcb] at hB
      have hCW := (addPiece_white_fields b t sq).2.2.2.1
      have hCB := (addPiece_white_fields b t sq).2.2.2.2
      exact foldl_addPiece_inv ps _
        (addPiece_white_inv b t sq (by omega) hinv)
        (fun p hp => hcolors p (List.mem_cons_of_mem _ hp))
        (by rw [hCW]; omega)
        (by rw [hCB]; omega)
    · subst hc
      have hcw : countColor ((t, BLACK, sq) :: ps) WHITE = countColor ps WHITE := by
        simp [countColor, WHITE, BLACK]
      have hcb : countColor ((t, BLACK, sq) :: ps) BLACK = countColor ps BLACK + 1 := by
        simp [countColor]
      rw [hcw] at hW
      rw [hcb] at hB
      have hCB := (addPiece_black_fields b t sq).2.2.2.1
      have hCW := (addPiece_black_fields b t sq).2.2.2.2
      exact foldl_addPiece_inv ps _
        (addPiece_black_inv b t sq (by omega) (by omega) hinv)
        (fun p hp => hcolors p (List.mem_cons_of_mem _ hp))
        (by rw [hCW]; omega)
        (by rw [hCB]; omega)

theorem emptyBoard_setupInv : SetupInv emptyBoard := by
  refine ⟨by simp [emptyBoard], ⟨rfl, ?_⟩, ⟨rfl, ?_⟩, ?_, ?_⟩ <;>
    first
      | (intro i hi
         exact absurd hi (by simp [emptyBoard, Board.plist, WHITE, BLACK]))
      | (rintro ⟨i, hi, -⟩
         exact absurd hi (by simp [emptyBoard, Board.plist, Board.kingAtHead, WHITE, BLACK]))

theorem fenRowPieces_colors (rank : Int) (row : List Char) :
    ∀ p ∈ fenRowPieces rank row, p.2.1 = WHITE ∨ p.2.1 = BLACK := by
  unfold fenRowPieces
  suffices h : ∀ (st : Int × List (Nat × Nat × Int)),
      (∀ p ∈ st.2, p.2.1 = WHITE ∨ p.2.1 = BLACK) →
      ∀ p ∈ (row.foldl
        (fun (st : Int × List (Nat × Nat × Int)) ch =>
          if '1' ≤ ch ∧ ch ≤ '8' then (st.1 + ((ch.toNat : Int) - 48), st.2)
          else
            (st.1 + 1, st.2 ++
              [(charToPieceType (asciiUpper ch),
                if asciiUpper ch = ch then WHITE else BLACK, rank * 8 + st.1)]))
        st).2, p.2.1 = WHITE ∨ p.2.1 = BLACK by
    exact h (0, []) (by simp)
  induction row with
  | nil => exact fun st h => h
  | cons ch chs ih =>
    intro st hst
    simp only [List.foldl_cons]
    apply ih
    split
    · exact hst
    · intro p hp
      rcases List.mem_append.mp hp with hm | hm
      · exact hst p hm
      · have hpe : p = (charToPieceType (asciiUpper ch),
            if asciiUpper ch = ch then WHITE else BLACK, rank * 8 + st.1) := by
          simpa using hm
        rw [hpe]
        simp only []
        split
        · exact Or.inl rfl
        · exact Or.inr rfl

theorem fenPlacements_colors (s : String) :
    ∀ p ∈ fenPlacements s, p.2.1 = WHITE ∨ p.2.1 = BLACK := by
  unfold fenPlacements
  suffices h : ∀ (rows : List (Nat × String)) (acc : List (Nat × Nat × Int)),
      (∀ p ∈ acc, p.2.1 = WHITE ∨ p.2.1 = BLACK) →
      ∀ p ∈ rows.foldl
        (fun acc ir => acc ++ fenRowPieces (7 - (ir.1 : Int)) ir.2.toList) acc,
        p.2.1 = WHITE ∨ p.2.1 = BLACK by
    exact h _ [] (by simp)
  intro rows
  induction rows with
  | nil => exact fun acc h => h
  | cons r rs ih =>
    intro acc hacc
    simp only [List.foldl_cons]
    apply ih
    intro p hp
    rcases List.mem_append.mp hp with hm | hm
    · exact hacc p hm
    · exact fenRowPieces_colors _ _ p hm

/-- The setup invariants hold after `setupFromFEN` whenever the FEN
places at most 16 pieces per color. -/
theorem setupFromFEN_setupInv (fen : String)
    (hW : countColor (fenPlacements ((jsSplit fen ' ').getD 0 "")) WHITE ≤ 16)
    (hB : countColor (fenPlacements ((jsSplit fen ' ').getD 0 "")) BLACK ≤ 16) :
    (setupFromFEN fen).kingAtHead WHITE ∧ (setupFromFEN fen).kingAtHead BLACK ∧
    (setupFromFEN fen).wf := by
  have hinv := foldl_addPiece_inv (fenPlacements ((jsSplit fen ' ').getD 0 ""))
    emptyBoard emptyBoard_setupInv (fenPlacements_colors _)
    (by simpa [emptyBoard] using hW) (by simpa [emptyBoard] using hB)
  obtain ⟨-, hlokW, hlokB, hkW, hkB⟩ := hinv
  refine ⟨hkW, hkB, ?_, ?_⟩
  · have h1 := hlokW.1
    rwa [plist_white, pcount_white] at h1
  · have h1 := hlokB.1
    rwa [plist_black, pcount_black] at h1

/-- `addPiece` of a king into a non-empty list swaps the king into slot 0 and
sends the previous slot-0 occupant to the tail (board.ts lines 383-390). -/
theorem addPiece_king_swap (b : Board) (sq : Int) (c : Nat)
    (hlen : (b.plist c).length = b.pcount c) (hpos : 0 < b.pcount c) :
    (b.addPiece KING c sq).plist c =
      (b.plist c).set 0 (c * 16 + b.pcount c) ++ [(b.plist c).getD 0 0] := by
  simp only [Board.addPiece]
  rw [setPcount_plist, setPlist_plist_same _ _ _ _ Iff.rfl]
  rw [if_pos trivial, if_pos hpos]
  rw [List.take_of_length_le (le_of_eq (by rw [List.length_set, hlen]))]

/-- Claim C3: for every color, piece-list entry 0 is that color's king whenever
that color has at least one piece and a king has been placed:
(i) `setupStartPosition` puts each king at list index 0;
(ii) `setupFromFEN` yields boards whose slot 0 holds the king (whenever each
color places at most its 16 slots);
(iii) `addPiece` of a king swaps it into list position 0 and relocates the
previous slot-0 occupant to the list's tail;
(iv) `applyMove` preserves the king-at-head property provided no removed or
replaced piece is a king. -/
theorem claim_C3_king_at_head :
    ((setupStartPosition.getPiece WHITE 0).type = KING ∧
     (setupStartPosition.getPiece WHITE 0).color = WHITE ∧
     (setupStartPosition.getPiece BLACK 0).type = KING ∧
     (setupStartPosition.getPiece BLACK 0).color = BLACK) ∧
    (∀ fen : String,
      countColor (fenPlacements ((jsSplit fen ' ').getD 0 "")) WHITE ≤ 16 →
      countColor (fenPlacements ((jsSplit fen ' ').getD 0 "")) BLACK ≤ 16 →
      (setupFromFEN fen).kingAtHead WHITE ∧ (setupFromFEN fen).kingAtHead BLACK) ∧
    (∀ (b : Board) (sq : Int) (c : Nat),
      (b.plist c).length = b.pcount c → 0 < b.pcount c →
      (b.addPiece KING c sq).plist c =
        (b.plist c).set 0 (c * 16 + b.pcount c) ++ [(b.plist c).getD 0 0]) ∧
    (∀ (b : Board) (src dst : Int) (promo : Option Nat) (ic inl : Bool) (c : Nat),
      b.wf → b.kingAtHead c →
      (0 ≤ b.boardAt dst →
        (b.pieces.getD (b.boardAt dst).toNat emptyPiece).type ≠ KING) →
      (0 ≤ b.boardAt (if b.sideToMove = WHITE then dst - 8 else dst + 8) →
        (b.pieces.getD
          (b.boardAt (if b.sideToMove = WHITE then dst - 8 else dst + 8)).toNat
          emptyPiece).type ≠ KING) →
      (promo = none ∨ ∃ q, promo = some q ∧ q ≠ KING ∧
        (0 ≤ b.boardAt src →
          (b.pieces.getD (b.boardAt src).toNat emptyPiece).type ≠ KING)) →
      (b.applyMove src dst promo ic inl).kingAtHead c ∧
      (b.applyMove src dst promo ic inl).wf) := by
  refine ⟨by decide, ?_, ?_, ?_⟩
  · intro fen hW hB
    have h := setupFromFEN_setupInv fen hW hB
    exact ⟨h.1, h.2.1⟩
  · intro b sq c hlen hpos
    exact addPiece_king_swap b sq c hlen hpos
  · intro b src dst promo ic inl c hwf hk hcap hep hpromo
    exact applyMove_kingAtHead b src dst promo ic inl c hwf hk hcap hep hpromo

theorem claim_C3_king_at_head_witness :
    (setupStartPosition.getPiece WHITE 0).type = KING ∧
    ((setupFromFEN
        "rnbqkbnr/pppppppp/8/8/8/8/PPPPPPPP/RNBQKBNR w KQkq - 0 1").kingAtHead
        WHITE ∧
     (setupFromFEN
        "rnbqkbnr/pppppppp/8/8/8/8/PPPPPPPP/RNBQKBNR w KQkq - 0 1").kingAtHead
        BLACK) ∧
    (setupStartPosition.addPiece KING WHITE 0).plist WHITE =
      (setupStartPosition.plist WHITE).set 0 16 ++
        [(setupStartPosition.plist WHITE).getD 0 0] ∧
    ((setupStartPosition.applyMove 12 20 none false false).kingAtHead WHITE ∧
     (setupStartPosition.applyMove 12 20 none false false).wf) := by
  refine ⟨claim_C3_king_at_head.1.1,
    claim_C3_king_at_head.2.1
      "rnbqkbnr/pppppppp/8/8/8/8/PPPPPPPP/RNBQKBNR w KQkq - 0 1"
      (by decide) (by decide),
    ?_,
    claim_C3_king_at_head.2.2.2 setupStartPosition 12 20 none false false WHITE
      (by decide) (by decide) (by decide) (by decide) (Or.inl rfl)⟩
  have h3 := claim_C3_king_at_head.2.2.1 setupStartPosition 0 WHITE
    (by decide) (by decide)
  simpa using h3
